import Mathlib

/-!
Verification development for the terraform-log normalization and
section-boundary-detection engine (`src/parser/terraform_log_cli.py`).

The engine is shallowly embedded: one raw JSON log line becomes a
`Payload` (an insertion-ordered list of string keys mapped to scalar
JSON values), the per-record normalizer `parse_entry_from_dict` becomes
a state-passing function (the process-global attribute
`_normalize_timestamp._last` is threaded explicitly as an
`Option String`), and the single-pass section tracker of
`parse_log_file` becomes a fold of `trackStep` over record indices
followed by the end-of-stream close `eofClose`.  The regular
expressions of the source are hand-compiled into decidable character
list scanners with Python `re.search` semantics.  Fallible code
(`candidate.split()[0]`, which can raise `IndexError`) is modelled with
`Option`: `none` is an uncaught Python exception.
-/

set_option autoImplicit false

namespace TfLog

/-- Scalar JSON values as they appear in one parsed log line.  Structured
(array/object) values are not modelled; every input considered by the
claims is scalar-valued. -/
inductive Jval where
  | str (s : String)
  | num (n : Int)
  | bool (b : Bool)
  | null
deriving Repr, DecidableEq

/-- Python truthiness of a scalar JSON value. -/
def Jval.truthy : Jval → Bool
  | .str s => s ≠ ""
  | .num n => n ≠ 0
  | .bool b => b
  | .null => false

/-- A raw payload: one parsed JSON object, keys in insertion order
(keys are assumed distinct, as produced by `json.loads`). -/
abbrev Payload := List (String × Jval)

/-- `d.get(k)` on a Python dict. -/
def pyGet (d : Payload) (k : String) : Option Jval :=
  match d.find? (fun kv => kv.1 == k) with
  | some kv => some kv.2
  | none => none

/-- Python whitespace (the ASCII part): the class matched by `\s` and
stripped by `str.strip()` / split on by `str.split()`. -/
def isPySpace (c : Char) : Bool :=
  c == ' ' || c == '\t' || c == '\n' || c == '\r' || c == Char.ofNat 11 || c == Char.ofNat 12

/-- A word character for `\b` / `\w`-style classes: `[a-zA-Z0-9_]`
(ASCII, matching the source's explicit character classes). -/
def isWordChar (c : Char) : Bool := c.isAlphanum || c == '_'

/-- ASCII lowercase a character list (Python `str.lower()` on ASCII input). -/
def lcs (s : List Char) : List Char := s.map Char.toLower

/-- `str.strip()`. -/
def pyStrip (s : List Char) : List Char :=
  ((s.dropWhile isPySpace).reverse.dropWhile isPySpace).reverse

/-- `str.split()` (split on whitespace runs, dropping empty pieces). -/
def pySplitWs : List Char → List Char → List (List Char)
  | [], acc => if acc.isEmpty then [] else [acc.reverse]
  | c :: cs, acc =>
    if isPySpace c then
      if acc.isEmpty then pySplitWs cs [] else acc.reverse :: pySplitWs cs []
    else pySplitWs cs (c :: acc)

/-- Case-insensitive: does `pat` start `s`? -/
def matchCIPre : List Char → List Char → Bool
  | [], _ => true
  | _ :: _, [] => false
  | p :: ps, c :: cs => (p.toLower == c.toLower) && matchCIPre ps cs

/-- Case-sensitive: does `pat` start `s`? -/
def matchCSPre : List Char → List Char → Bool
  | [], _ => true
  | _ :: _, [] => false
  | p :: ps, c :: cs => (p == c) && matchCSPre ps cs

/-- Case-insensitive substring search (`re.search` of a literal with `re.I`). -/
def containsCI (hay pat : List Char) : Bool :=
  (List.range (hay.length + 1)).any (fun i => matchCIPre pat (hay.drop i))

/-- Case-sensitive substring search. -/
def containsCS (hay pat : List Char) : Bool :=
  (List.range (hay.length + 1)).any (fun i => matchCSPre pat (hay.drop i))

/-- Is there a word boundary just before position `i` of `hay`? -/
def boundaryBefore (hay : List Char) (i : Nat) : Bool :=
  i == 0 || !isWordChar (hay.getD (i - 1) ' ')

/-- Is there a word boundary at position `i` (end of a word ending there)? -/
def boundaryAfterAt (hay : List Char) (i : Nat) : Bool :=
  i ≥ hay.length || !isWordChar (hay.getD i ' ')

/-- `\bkw\b` matches at position `i` of `hay`, case-insensitively. -/
def boundedKwAt (hay : List Char) (i : Nat) (kw : List Char) : Bool :=
  boundaryBefore hay i && matchCIPre kw (hay.drop i) && boundaryAfterAt hay (i + kw.length)

/-- Decimal digits of a natural number, fuel-driven so that it reduces
definitionally (`n + 1` fuel always suffices). -/
def natDigitsAux : Nat → Nat → List Char
  | 0, _ => []
  | f + 1, n =>
    if n < 10 then [Char.ofNat (48 + n)]
    else natDigitsAux f (n / 10) ++ [Char.ofNat (48 + n % 10)]

/-- Decimal digits of a natural number (Python `str(n)` for `n ≥ 0`).
24 digits of fuel cover every number below `10^24`, far beyond any
value handled here; a bounded fuel keeps kernel reduction linear. -/
def natDigits (n : Nat) : List Char := natDigitsAux 24 n

/-- Python `str(i)` for an integer. -/
def intDigits (i : Int) : List Char :=
  if i < 0 then '-' :: natDigits i.natAbs else natDigits i.natAbs

/-- Left-pad the decimal form of `n` with zeros to width `w`. -/
def padNat (w n : Nat) : List Char :=
  let ds := natDigits n
  List.replicate (w - ds.length) '0' ++ ds

/-- Numeric value of a list of decimal digit characters. -/
def digitsVal (ds : List Char) : Nat :=
  ds.foldl (fun a c => a * 10 + (c.toNat - 48)) 0

/-! ## A model of `datetime`

`datetime.fromisoformat`, `datetime.strptime(_, "%Y/%m/%d %H:%M:%S")` and
`datetime.isoformat` are the only library functions the normalizer uses.
They are modelled for naive/utc-offset datetimes in the extended ISO
format accepted by CPython (3.11+): `YYYY-MM-DD`, optionally followed by
a one-character separator and `HH[:MM[:SS[.f{1..6}]]]`, optionally
followed by `Z` or `±HH[:MM]`.  Field ranges are validated as the
`datetime` constructor does. -/

structure PyDateTime where
  year : Nat
  month : Nat
  day : Nat
  hour : Nat
  minute : Nat
  second : Nat
  micro : Nat
  /-- utc offset in minutes, `none` for a naive datetime -/
  tzmin : Option Int
deriving Repr, DecidableEq

def isLeap (y : Nat) : Bool := (y % 4 == 0 && y % 100 != 0) || y % 400 == 0

def daysInMonth (y m : Nat) : Nat :=
  if m == 2 then (if isLeap y then 29 else 28)
  else if m == 4 || m == 6 || m == 9 || m == 11 then 30
  else 31

def validDate (y m d : Nat) : Bool :=
  1 ≤ y && y ≤ 9999 && 1 ≤ m && m ≤ 12 && 1 ≤ d && d ≤ daysInMonth y m

def validTime (h mi s : Nat) : Bool := h ≤ 23 && mi ≤ 59 && s ≤ 59

/-- Consume exactly `n` decimal digits, returning their value and the rest. -/
def takeDigitsN : Nat → List Char → Option (Nat × List Char)
  | 0, s => some (0, s)
  | n + 1, c :: cs =>
    if c.isDigit then
      (takeDigitsN n cs).map (fun p => ((c.toNat - 48) * 10 ^ n + p.1, p.2))
    else none
  | _ + 1, [] => none

/-- Consume one literal character. -/
def lit (c : Char) : List Char → Option (List Char)
  | d :: ds => if d == c then some ds else none
  | [] => none

/-- Fraction digits after the decimal separator, as microseconds
(1 to 6 digits, right-padded: `".5"` is 500000 microseconds). -/
def fracMicros (ds : List Char) : Option (Nat × List Char) :=
  let digs := ds.takeWhile Char.isDigit
  if digs.length == 0 || digs.length > 6 then none
  else some (digitsVal digs * 10 ^ (6 - digs.length), ds.drop digs.length)

/-- Time-of-day part `HH[:MM[:SS[.f]]]` (decimal separator `.` or `,`). -/
def parseTimePart (s : List Char) : Option (Nat × Nat × Nat × Nat × List Char) := do
  let (h, s) ← takeDigitsN 2 s
  match lit ':' s with
  | none => some (h, 0, 0, 0, s)
  | some s =>
    let (mi, s) ← takeDigitsN 2 s
    match lit ':' s with
    | none => some (h, mi, 0, 0, s)
    | some s =>
      let (sec, s) ← takeDigitsN 2 s
      match s with
      | c :: cs =>
        if c == '.' || c == ',' then do
          let (mic, rest) ← fracMicros cs
          some (h, mi, sec, mic, rest)
        else some (h, mi, sec, 0, s)
      | [] => some (h, mi, sec, 0, [])

/-- Timezone designator `Z` or `±HH[:MM]`; offset in minutes. -/
def parseTz (s : List Char) : Option (Option Int × List Char) :=
  match s with
  | [] => some (none, [])
  | 'Z' :: rest => some (some 0, rest)
  | c :: rest =>
    if c == '+' || c == '-' then
      match takeDigitsN 2 rest with
      | none => none
      | some (hh, r1) =>
        let (mm, r2) :=
          match lit ':' r1 with
          | some r1' =>
            match takeDigitsN 2 r1' with
            | some (mm, r2) => (some mm, r2)
            | none => (none, r1')
          | none => (some 0, r1)
        match mm with
        | none => none
        | some mm =>
          if hh ≤ 23 && mm ≤ 59 then
            let off : Int := (hh : Int) * 60 + (mm : Int)
            some (some (if c == '-' then -off else off), r2)
          else none
    else none

/-- Model of `datetime.fromisoformat` (CPython 3.11+, extended format):
the whole string must be consumed. -/
def pyFromIsoformat (s : List Char) : Option PyDateTime := do
  let (y, s) ← takeDigitsN 4 s
  let s ← lit '-' s
  let (mo, s) ← takeDigitsN 2 s
  let s ← lit '-' s
  let (d, s) ← takeDigitsN 2 s
  if !validDate y mo d then none
  else
    match s with
    | [] => some ⟨y, mo, d, 0, 0, 0, 0, none⟩
    | _ :: timePart => do
      -- any single separator character is accepted
      let (h, mi, sec, mic, rest) ← parseTimePart timePart
      if !validTime h mi sec then none
      else
        let (tz, rest) ← parseTz rest
        match rest with
        | [] => some ⟨y, mo, d, h, mi, sec, mic, tz⟩
        | _ => none

/-- Model of `datetime.strptime(raw, "%Y/%m/%d %H:%M:%S")` on a string
already known to be shaped `dddd/dd/dd dd:dd:dd` with nothing after:
range validation as in the `datetime` constructor. -/
def strptimeAlt (s : List Char) : Option PyDateTime := do
  let (y, s) ← takeDigitsN 4 s
  let s ← lit '/' s
  let (mo, s) ← takeDigitsN 2 s
  let s ← lit '/' s
  let (d, s) ← takeDigitsN 2 s
  let s ← lit ' ' s
  let (h, s) ← takeDigitsN 2 s
  let s ← lit ':' s
  let (mi, s) ← takeDigitsN 2 s
  let s ← lit ':' s
  let (sec, s) ← takeDigitsN 2 s
  match s with
  | [] => if validDate y mo d && validTime h mi sec then some ⟨y, mo, d, h, mi, sec, 0, none⟩ else none
  | _ => none

/-- Model of `datetime.isoformat()`: `YYYY-MM-DDTHH:MM:SS`, the
microseconds iff nonzero, the utc offset as `±HH:MM` iff aware. -/
def isoformat (dt : PyDateTime) : List Char :=
  padNat 4 dt.year ++ '-' :: padNat 2 dt.month ++ '-' :: padNat 2 dt.day ++
  'T' :: padNat 2 dt.hour ++ ':' :: padNat 2 dt.minute ++ ':' :: padNat 2 dt.second ++
  (if dt.micro == 0 then [] else '.' :: padNat 6 dt.micro) ++
  (match dt.tzmin with
   | none => []
   | some off =>
     (if off < 0 then '-' else '+') :: padNat 2 (off.natAbs / 60) ++ ':' :: padNat 2 (off.natAbs % 60))

/-! ## Hand-compiled regular expressions

Each `re` pattern of the source becomes a decidable scanner with
`re.search` semantics: the match at the leftmost possible position
wins, greedy pieces are deterministic because adjacent pieces consume
disjoint character classes. -/

/-- Run a sequence of piece-matchers left to right. -/
def pSeq : List (List Char → Option (List Char)) → List Char → Option (List Char)
  | [], s => some s
  | f :: fs, s =>
    match f s with
    | none => none
    | some s' => pSeq fs s'

/-- `\d{n}` (value discarded). -/
def dropDigitsN (n : Nat) (s : List Char) : Option (List Char) :=
  (takeDigitsN n s).map Prod.snd

/-- `[T ]`. -/
def sepTS : List Char → Option (List Char)
  | c :: cs => if c == 'T' || c == ' ' then some cs else none
  | [] => none

/-- Optional greedy fraction `(?:[.,]\d+)?`. -/
def optFracTail (s : List Char) : List Char :=
  match s with
  | c :: d :: ds =>
    if (c == '.' || c == ',') && d.isDigit then (d :: ds).dropWhile Char.isDigit else c :: d :: ds
  | other => other

/-- The numeric tail `\d{2}:?\d{2}` of an offset. -/
def tzNumTail (s : List Char) : Option (List Char) :=
  (dropDigitsN 2 s).bind (fun r =>
    dropDigitsN 2 (match lit ':' r with | some r' => r' | none => r))

/-- Optional timezone `(?:Z|[+\-]\d{2}:?\d{2})?`. -/
def optTzTail (s : List Char) : List Char :=
  match s with
  | 'Z' :: rest => rest
  | c :: rest =>
    if c == '+' || c == '-' then
      match tzNumTail rest with
      | some r => r
      | none => c :: rest
    else c :: rest
  | [] => []

/-- Match of `ISO_TS_RE` starting at the head of `s`:
`\d{4}-\d{2}-\d{2}[T ]\d{2}:\d{2}:\d{2}(?:[.,]\d+)?(?:Z|[+\-]\d{2}:?\d{2})?`.
Returns the unmatched rest. -/
def isoReAt (s : List Char) : Option (List Char) :=
  (pSeq [dropDigitsN 4, lit '-', dropDigitsN 2, lit '-', dropDigitsN 2, sepTS,
         dropDigitsN 2, lit ':', dropDigitsN 2, lit ':', dropDigitsN 2] s).map
    (fun r => optTzTail (optFracTail r))

/-- Match of `ALT_TS_RE` starting at the head of `s`:
`\d{4}/\d{2}/\d{2} \d{2}:\d{2}:\d{2}(?:[.,]\d+)?`. -/
def altReAt (s : List Char) : Option (List Char) :=
  (pSeq [dropDigitsN 4, lit '/', dropDigitsN 2, lit '/', dropDigitsN 2, lit ' ',
         dropDigitsN 2, lit ':', dropDigitsN 2, lit ':', dropDigitsN 2] s).map optFracTail

/-- `re.search`: matched substring of the leftmost match of a
head-matcher `reAt`. -/
def reSearch (reAt : List Char → Option (List Char)) (hay : List Char) : Option (List Char) :=
  (List.range (hay.length + 1)).findSome? (fun i =>
    (reAt (hay.drop i)).map (fun rest => (hay.drop i).take (hay.length - i - rest.length)))

/-- The alternatives of `LEVEL_RE`, in pattern order. -/
def levelAlts : List (List Char) :=
  ["trace".data, "debug".data, "info".data, "warn".data, "warning".data, "error".data, "critical".data]

/-- `LEVEL_RE.search`: `\b(trace|debug|info|warn|warning|error|critical)\b`
with `re.I`; returns the group keyword (lowercase form).  Alternatives
are tried in order at each position, each requiring the trailing word
boundary, which reproduces the backtracking on `warn`/`warning`. -/
def levelSearch (hay : List Char) : Option (List Char) :=
  (List.range (hay.length + 1)).findSome? (fun i =>
    if boundaryBefore hay i then
      levelAlts.findSome? (fun w =>
        if matchCIPre w (hay.drop i) && boundaryAfterAt hay (i + w.length) then some w else none)
    else none)

/-- `VERTEX_RE` at the head of `s`: `vertex\s+"([^"]+)"` (case-sensitive);
returns the group. -/
def vertexReAt (s : List Char) : Option (List Char) := do
  let s ← (if matchCSPre "vertex".data s then some (s.drop 6) else none)
  let s ← (match s with
           | c :: cs => if isPySpace c then some (cs.dropWhile isPySpace) else none
           | [] => none)
  let s ← lit '"' s
  let grp := s.takeWhile (fun c => c != '"')
  if grp.isEmpty then none
  else match s.drop grp.length with
       | '"' :: _ => some grp
       | _ => none

/-- `VERTEX_RE.search`. -/
def vertexSearch (hay : List Char) : Option (List Char) :=
  (List.range (hay.length + 1)).findSome? (fun i => vertexReAt (hay.drop i))

/-- `RESOURCE_ID_RE` at position `i`:
`\b([a-zA-Z0-9_]+\.[a-zA-Z0-9_]+)\b`; returns the group. -/
def resourceIdAt (hay : List Char) (i : Nat) : Option (List Char) :=
  if !boundaryBefore hay i then none
  else
    let s := hay.drop i
    let run1 := s.takeWhile isWordChar
    if run1.isEmpty then none
    else match s.drop run1.length with
         | '.' :: rest =>
           let run2 := rest.takeWhile isWordChar
           if run2.isEmpty then none else some (run1 ++ '.' :: run2)
         | _ => none

/-- `RESOURCE_ID_RE.search`. -/
def resourceIdSearch (hay : List Char) : Option (List Char) :=
  (List.range (hay.length + 1)).findSome? (fun i => resourceIdAt hay i)

/-! ## Section start/end patterns (`_START_PATTERNS`, `_END_PATTERNS`) -/

/-- No newline in `s` (`.` of the patterns does not match `\n`). -/
def noNL (s : List Char) : Bool := s.all (fun c => c != '\n')

/-- The `.*\bkw\b` tail starting at position `e`: some bounded
case-insensitive occurrence of `kw` at `j ≥ e` with no newline between
`e` and `j`. -/
def tailKwFrom (hay : List Char) (e : Nat) (kw : List Char) : Bool :=
  (List.range (hay.length + 1)).any (fun j =>
    e ≤ j && noNL ((hay.drop e).take (j - e)) && boundedKwAt hay j kw)

/-- `CLI (command )?args.*\bkw\b` with `re.I`. -/
def cliArgsSearch (hay kw : List Char) : Bool :=
  (List.range (hay.length + 1)).any (fun i =>
    (matchCIPre "CLI args".data (hay.drop i) && tailKwFrom hay (i + 8) kw) ||
    (matchCIPre "CLI command args".data (hay.drop i) && tailKwFrom hay (i + 16) kw))

/-- `\bterraform\b.*\bkw\b` with `re.I`. -/
def terraformSearch (hay kw : List Char) : Bool :=
  (List.range (hay.length + 1)).any (fun i =>
    boundedKwAt hay i "terraform".data && tailKwFrom hay (i + 9) kw)

/-- `\bPlan:\s*\d+\s*to add` with `re.I`. -/
def planToAddAt (hay : List Char) (i : Nat) : Bool :=
  boundaryBefore hay i &&
  (match (do
     let s ← (if matchCIPre "Plan:".data (hay.drop i) then some ((hay.drop i).drop 5) else none)
     let s := s.dropWhile isPySpace
     let digs := s.takeWhile Char.isDigit
     let s ← (if digs.isEmpty then none else some (s.drop digs.length))
     let s := s.dropWhile isPySpace
     if matchCIPre "to add".data s then some () else none) with
   | some _ => true
   | none => false)

def planToAddSearch (hay : List Char) : Bool :=
  (List.range (hay.length + 1)).any (fun i => planToAddAt hay i)

/-- One `\s*\d+\s*` piece followed by a literal (used by the summary
patterns); consumes through the literal. -/
def wsNumWs (s : List Char) (next : List Char) : Option (List Char) := do
  let s := s.dropWhile isPySpace
  let digs := s.takeWhile Char.isDigit
  let s ← (if digs.isEmpty then none else some (s.drop digs.length))
  let s := s.dropWhile isPySpace
  if matchCIPre next s then some (s.drop next.length) else none

/-- `Plan:\s*\d+\s*to add,\s*\d+\s*to change,\s*\d+\s*to destroy` with `re.I`. -/
def planSummaryAt (hay : List Char) (i : Nat) : Bool :=
  (match (do
     let s ← (if matchCIPre "Plan:".data (hay.drop i) then some ((hay.drop i).drop 5) else none)
     let s ← wsNumWs s "to add,".data
     let s ← wsNumWs s "to change,".data
     let _ ← wsNumWs s "to destroy".data
     pure ()) with
   | some _ => true
   | none => false)

def planSummarySearch (hay : List Char) : Bool :=
  (List.range (hay.length + 1)).any (fun i => planSummaryAt hay i)

/-- One `\s*0\s*` piece followed by a literal. -/
def wsZeroWs (s : List Char) (next : List Char) : Option (List Char) := do
  let s := s.dropWhile isPySpace
  let s ← lit '0' s
  let s := s.dropWhile isPySpace
  if matchCIPre next s then some (s.drop next.length) else none

/-- `Plan:\s*0\s*to add,\s*0\s*to change,\s*0\s*to destroy` with `re.I`. -/
def planZeroAt (hay : List Char) (i : Nat) : Bool :=
  (match (do
     let s ← (if matchCIPre "Plan:".data (hay.drop i) then some ((hay.drop i).drop 5) else none)
     let s ← wsZeroWs s "to add,".data
     let s ← wsZeroWs s "to change,".data
     let _ ← wsZeroWs s "to destroy".data
     pure ()) with
   | some _ => true
   | none => false)

def planZeroSearch (hay : List Char) : Bool :=
  (List.range (hay.length + 1)).any (fun i => planZeroAt hay i)

/-- Does any of `_START_PATTERNS` match, and the fallback type tag of
the first matching pattern (derived from the pattern text)?  The list
mirrors the source order. -/
def startPatternHit (s : List Char) : Option String :=
  if cliArgsSearch s "plan".data then some "plan"
  else if cliArgsSearch s "apply".data then some "apply"
  else if containsCI s "starting Plan operation".data then some "plan"
  else if containsCI s "starting Apply operation".data then some "apply"
  else if terraformSearch s "plan".data then some "plan"
  else if terraformSearch s "apply".data then some "apply"
  else if containsCI s "backend/local: starting Plan operation".data then some "plan"
  else none

/-- Does any of `_END_PATTERNS` match? -/
def endPatternHit (s : List Char) : Bool :=
  planToAddSearch s || containsCI s "Apply complete".data ||
  containsCI s "No changes. Infrastructure is up-to-date".data ||
  planSummarySearch s || planZeroSearch s

/-- `_detect_section_start_type`. -/
def detect_section_start_type (text : String) : Option String :=
  if text = "" then none
  else
    let t := lcs text.data
    match startPatternHit text.data with
    | none => none
    | some fallback =>
      if containsCS t "apply".data then some "apply"
      else if containsCS t "plan".data then some "plan"
      else some fallback

/-- `_detect_section_end`. -/
def detect_section_end (text : String) : Option String :=
  if text = "" then none
  else
    let t := lcs text.data
    if endPatternHit text.data then
      if containsCS t "apply".data || containsCS t "apply complete".data then some "apply"
      else if containsCS t "plan".data || containsCS t "to add".data then some "plan"
      else some "plan"
    else none

/-! ## `json.dumps(d, ensure_ascii=False)` -/

def hexDigit (n : Nat) : Char :=
  if n < 10 then Char.ofNat (48 + n) else Char.ofNat (87 + n)

/-- JSON escape of one character (`ensure_ascii=False`). -/
def jsonEsc (c : Char) : List Char :=
  if c == '"' then ['\\', '"']
  else if c == '\\' then ['\\', '\\']
  else if c == '\n' then ['\\', 'n']
  else if c == '\t' then ['\\', 't']
  else if c == '\r' then ['\\', 'r']
  else if c == Char.ofNat 8 then ['\\', 'b']
  else if c == Char.ofNat 12 then ['\\', 'f']
  else if c.toNat < 32 then ['\\', 'u', '0', '0', hexDigit (c.toNat / 16), hexDigit (c.toNat % 16)]
  else [c]

def dumpStr (s : String) : List Char :=
  '"' :: (s.data.foldr (fun c acc => jsonEsc c ++ acc) ['"'])

def dumpJval : Jval → List Char
  | .str s => dumpStr s
  | .num n => intDigits n
  | .bool b => if b then "true".data else "false".data
  | .null => "null".data

/-- `json.dumps` of a flat object, default separators. -/
def dumps (d : Payload) : List Char :=
  Char.ofNat 123 ::
    ((d.map (fun kv => dumpStr kv.1 ++ ':' :: ' ' :: dumpJval kv.2)).intersperse (", ".data)).flatten
    ++ [Char.ofNat 125]

/-! ## Record normalizer (`parse_entry_from_dict` and helpers) -/

def TIMESTAMP_KEYS : List String := ["@timestamp", "timestamp", "time", "ts", "date"]
def LEVEL_KEYS : List String := ["@level", "level", "severity", "lvl"]
def MESSAGE_KEYS : List String := ["@message", "message", "msg", "log"]

/-- First key of `ks` whose value in `d` is a string with non-empty
strip (the extraction loops of `_extract_from_dict`). -/
def firstStrKey (d : Payload) (ks : List String) : Option String :=
  ks.findSome? (fun k =>
    match pyGet d k with
    | some (.str s) => if (pyStrip s.data).isEmpty then none else some s
    | _ => none)

/-- The message fallback of `_extract_from_dict`: first value that is a
string of length strictly between 0 and 1000. -/
def msgFallback (d : Payload) : Option String :=
  d.findSome? (fun kv =>
    match kv.2 with
    | .str v => if 0 < v.length && v.length < 1000 then some v else none
    | _ => none)

/-- `_extract_from_dict`: `(timestamp, level, message)` candidates. -/
def extract_from_dict (d : Payload) : Option String × Option String × Option String :=
  let ts := firstStrKey d TIMESTAMP_KEYS
  let level := firstStrKey d LEVEL_KEYS
  let msg := match firstStrKey d MESSAGE_KEYS with
             | some m => some m
             | none => msgFallback d
  (ts, level, msg)

/-- `_find_ts_in_text`. -/
def find_ts_in_text (s : String) : Option String :=
  match reSearch isoReAt s.data with
  | some m => some (String.mk m)
  | none =>
    match reSearch altReAt s.data with
    | some m => some (String.mk m)
    | none => none

/-- `_find_level_in_text`. -/
def find_level_in_text (s : String) : Option String :=
  (levelSearch s.data).map (fun w => String.mk (w.map Char.toUpper))

/-- `_normalize_level` (the input is always a string or absent here). -/
def normalize_level (level : Option String) : Option String :=
  match level with
  | none => none
  | some s =>
    if s = "" then none
    else
      match levelSearch s.data with
      | some w => some (String.mk (w.map Char.toUpper))
      | none => some (String.mk ((pyStrip s.data).map Char.toUpper))

/-- `_extract_resource_from_message`.  The outer `Option` is partiality:
`none` is the uncaught `IndexError` of `candidate.split()[0]` when the
vertex group contains only whitespace. -/
def extract_resource_from_message (msg : Option String) : Option (Option String) :=
  match msg with
  | none => some none
  | some m =>
    if m = "" then some none
    else
      match vertexSearch m.data with
      | some candidate =>
        match pySplitWs candidate [] with
        | tok :: _ => some (some (String.mk tok))
        | [] => none
      | none => some ((resourceIdSearch m.data).map String.mk)

/-- The sentinel: `datetime(8999, 12, 31, 23, 59, 59, 999999)`. -/
def MAX_TS : PyDateTime := ⟨8999, 12, 31, 23, 59, 59, 999999, none⟩

/-- `MAX_TS.isoformat()`, the far-future marker string. -/
def markerTs : String := String.mk (isoformat MAX_TS)

/-- Truthiness of the carried `_last` attribute. -/
def lastTruthy : Option String → Bool
  | some s => s ≠ ""
  | none => false

/-- Return the previous mark if truthy, else set and return the marker
(the carry/marker tail of `_normalize_timestamp`). -/
def carryOr (last : Option String) : String × Option String :=
  if lastTruthy last then (last.getD "", last) else (markerTs, some markerTs)

/-- The string preprocessing of `_normalize_timestamp`: replace every
comma by a period, then the first space by `T` when there is a space
and no `T`. -/
def tsPre (s0 : String) : List Char :=
  let s1 := s0.data.map (fun c => if c == ',' then '.' else c)
  if s1.any (fun c => c == ' ') && !(s1.any (fun c => c == 'T')) then
    (s1.takeWhile (fun c => c != ' ')) ++ 'T' :: ((s1.dropWhile (fun c => c != ' ')).drop 1)
  else s1

/-- The parse attempt of `_normalize_timestamp` on a non-empty string:
preprocessing, `fromisoformat`, then the `ALT_TS_RE`/`strptime`
fallback (the `ALT` search runs on the original string and the matched
text is cut at the first comma, `m.group(0).split(",")[0]`).  `some iso`
is the successfully parsed ISO string, `none` falls back to the carry. -/
def tsParse (s0 : String) : Option String :=
  match pyFromIsoformat (tsPre s0) with
  | some dt => some (String.mk (isoformat dt))
  | none =>
    match reSearch altReAt s0.data with
    | some matched =>
      match strptimeAlt (matched.takeWhile (fun c => c != ',')) with
      | some dt => some (String.mk (isoformat dt))
      | none => none
    | none => none

/-- `_normalize_timestamp`, with the function attribute `_last` passed
and returned explicitly.  The `datetime`-typed input branch is omitted:
`parse_entry_from_dict` only ever passes `None` or a string. -/
def normalize_timestamp (last : Option String) (ts : Option String) : String × Option String :=
  match ts with
  | none => carryOr last
  | some s0 =>
    if (pyStrip s0.data).isEmpty then carryOr last
    else
      match tsParse s0 with
      | some iso => (iso, some iso)
      | none => carryOr last

/-- The overall success predicate: `some iso` when `_normalize_timestamp`
takes the set-and-return path on input `ts`, `none` when it carries. -/
def tsSuccess (ts : Option String) : Option String :=
  match ts with
  | none => none
  | some s0 => if (pyStrip s0.data).isEmpty then none else tsParse s0

/-- Python string comparison (`<` on `str`, as used by the sort key of
`sort_entries`): lexicographic on code points. -/
def pyCharsLt : List Char → List Char → Bool
  | [], [] => false
  | [], _ :: _ => true
  | _ :: _, [] => false
  | a :: as, b :: bs => a < b || (a == b && pyCharsLt as bs)

def pyStrLt (a b : String) : Bool := pyCharsLt a.data b.data

/-- A normalized record.  `section_id`/`section_type`/`section_event`
are the tracker's annotations, absent until assigned. -/
structure Entry where
  timestamp : String
  level : Option String
  message : Option String
  json : Payload
  resource : Option String
  raw : String
  section_id : Option Nat := none
  section_type : Option String := none
  section_event : Option String := none
deriving Repr, DecidableEq

instance : Inhabited Entry := ⟨⟨"", none, none, [], none, "", none, none, none⟩⟩

/-- The message selected by `_extract_from_dict`. -/
def msgOf (d : Payload) : Option String := (extract_from_dict d).2.2

/-- The timestamp argument handed to `_normalize_timestamp` by
`parse_entry_from_dict`: structured keys first, then the text search
(`if not ts_raw and isinstance(msg, str): ts_raw = _find_ts_in_text(msg)`). -/
def tsArgOf (d : Payload) : Option String :=
  match (extract_from_dict d).1, msgOf d with
  | none, some m => find_ts_in_text m
  | tsRaw, _ => tsRaw

/-- The level argument handed to `_normalize_level`, with the same
text-search fallback. -/
def levelArgOf (d : Payload) : Option String :=
  match (extract_from_dict d).2.1, msgOf d with
  | none, some m => find_level_in_text m
  | levelRaw, _ => levelRaw

/-- `parse_entry_from_dict`, threading the resolver state; `none` is an
uncaught exception (from the resource extraction). -/
def parse_entry_from_dict (last : Option String) (d : Payload) : Option (Entry × Option String) :=
  let (ts, last') := normalize_timestamp last (tsArgOf d)
  let level := normalize_level (levelArgOf d)
  match extract_resource_from_message (msgOf d) with
  | none => none
  | some resource =>
    some ({ timestamp := ts, level := level, message := msgOf d, json := d,
            resource := resource, raw := String.mk (dumps d) }, last')

/-- The collection loop at the top of `parse_log_file`: normalize every
payload in order, threading the resolver state; an exception in any
record aborts the whole run. -/
def collectEntries : List Payload → Option String → Option (List Entry × Option String)
  | [], last => some ([], last)
  | d :: ds, last =>
    match parse_entry_from_dict last d with
    | none => none
    | some (e, last') =>
      match collectEntries ds last' with
      | none => none
      | some (es, lastF) => some (e :: es, lastF)

/-! ## Section tracker (the loop body of `parse_log_file`) -/

/-- A section record.  `tf_req_id = none` is an anonymous section. -/
structure Section where
  id : Nat
  type : String
  tf_req_id : Option Jval
  start_index : Nat
  start_ts : String
  end_index : Option Nat
  end_ts : Option String
  entries : Nat
deriving Repr, DecidableEq

instance : Inhabited Section := ⟨⟨0, "", none, 0, "", none, none, 0⟩⟩

/-- Keys of the `open_by_id` dict: a real `tf_req_id` value, or the
synthetic string `_anon_{sec_id}` for an anonymous section.  Python
uses the payload value itself as the key, so the key type is `Jval`
and anonymous keys are the corresponding strings. -/
def anonKey (secId : Nat) : Jval := .str (String.mk ("_anon_".data ++ natDigits secId))

/-- `k.startswith("_anon_")` as used on the open-table keys. -/
def isAnonKey : Jval → Bool
  | .str s => matchCSPre "_anon_".data s.data
  | _ => false

/-- The tracker state: the (already normalized) record list being
annotated in place, the section table, and the insertion-ordered
`open_by_id` mapping (key to position in `sections`). -/
structure TrackState where
  entries : List Entry
  sections : List Section
  openById : List (Jval × Nat)
deriving Repr, DecidableEq

/-- Ordered-dict lookup. -/
def lookupKey (m : List (Jval × Nat)) (k : Jval) : Option Nat :=
  match m.find? (fun kv => kv.1 == k) with
  | some kv => some kv.2
  | none => none

/-- Ordered-dict `pop`. -/
def removeKey (m : List (Jval × Nat)) (k : Jval) : List (Jval × Nat) :=
  m.filter (fun kv => kv.1 != k)

/-- Write the three section annotations of record `i`
(`entry["section_id"] = ...` etc.). -/
def annotate (es : List Entry) (i : Nat) (sid : Nat) (stype : String) (ev : String) : List Entry :=
  match es.get? i with
  | some e => es.set i { e with section_id := some sid, section_type := some stype, section_event := some ev }
  | none => es

/-- `_close_section_by_id(tfid, close_at_idx)`. -/
def closeSectionById (st : TrackState) (tfid : Jval) (closeAt : Nat) : TrackState :=
  match lookupKey st.openById tfid with
  | none => st
  | some si =>
    let sec := st.sections.getD si default
    let endTs := if closeAt < st.entries.length then (st.entries.getD closeAt default).timestamp
                 else sec.start_ts
    { entries := annotate st.entries closeAt sec.id sec.type "end"
      sections := st.sections.set si { sec with end_index := some closeAt, end_ts := some endTs }
      openById := removeKey st.openById tfid }

/-- Close several keys at the same index (the `for other in other_ids`
and close-all loops; the key list is a snapshot of the dict keys). -/
def closeMany (st : TrackState) (ks : List Jval) (closeAt : Nat) : TrackState :=
  ks.foldl (fun s k => closeSectionById s k closeAt) st

/-- The `text_blob` of a record: `entry.get("message") or
entry.get("raw") or json.dumps(j or {})`. -/
def textBlob (e : Entry) : String :=
  match e.message with
  | some m => if m ≠ "" then m else (if e.raw ≠ "" then e.raw else String.mk (dumps e.json))
  | none => if e.raw ≠ "" then e.raw else String.mk (dumps e.json)

/-- The section `type` inferred when a new identifier-keyed section
starts: start patterns, else end patterns, else `"plan"`. -/
def inferType (blob : String) : String :=
  match detect_section_start_type blob with
  | some t => t
  | none =>
    match detect_section_end blob with
    | some t => t
    | none => "plan"

/-- For a record with a truthy `tf_req_id`: open a new section for it,
or mark the record `inside` the one already open. -/
def tfidOpenOrInside (st : TrackState) (idx : Nat) (tfid : Jval) (blob : String) : TrackState :=
  match lookupKey st.openById tfid with
  | none =>
    let secId := st.sections.length + 1
    let entry := st.entries.getD idx default
    let stype := inferType blob
    let sec : Section :=
      { id := secId, type := stype, tf_req_id := some tfid, start_index := idx,
        start_ts := entry.timestamp, end_index := none, end_ts := none, entries := 0 }
    let pos := st.sections.length
    { entries := annotate st.entries idx secId stype "start"
      sections := st.sections ++ [{ sec with entries := sec.entries + 1 }]
      openById := st.openById ++ [(tfid, pos)] }
  | some si =>
    let sec := st.sections.getD si default
    { entries := annotate st.entries idx sec.id sec.type "inside"
      sections := st.sections.set si { sec with entries := sec.entries + 1 }
      openById := st.openById }

/-- Same-record end pattern for an identifier-keyed record: close its
section immediately at `idx` when the types agree. -/
def tfidEndCheck (st : TrackState) (idx : Nat) (tfid : Jval) (blob : String) : TrackState :=
  match detect_section_end blob with
  | none => st
  | some endType =>
    match lookupKey st.openById tfid with
    | none => st
    | some si =>
      if (st.sections.getD si default).type = endType then closeSectionById st tfid idx else st

/-- The branch of the loop for a record carrying a truthy `tf_req_id`:
close every differently-keyed open section at the previous index, open
or extend, then check the same-record end pattern. -/
def tfidStep (st : TrackState) (idx : Nat) (tfid : Jval) (blob : String) : TrackState :=
  tfidEndCheck
    (tfidOpenOrInside
      (closeMany st ((st.openById.map Prod.fst).filter (fun k => k != tfid)) (idx - 1))
      idx tfid blob)
    idx tfid blob

/-- For a record with no identifier: open an anonymous section on a
start-pattern match, else attach the record to the most recently opened
anonymous section if one is open. -/
def noTfidStartOrAttach (st : TrackState) (idx : Nat) (blob : String) : TrackState :=
  match detect_section_start_type blob with
  | some startType =>
    let secId := st.sections.length + 1
    let entry := st.entries.getD idx default
    let sec : Section :=
      { id := secId, type := startType, tf_req_id := none, start_index := idx,
        start_ts := entry.timestamp, end_index := none, end_ts := none, entries := 1 }
    let pos := st.sections.length
    { entries := annotate st.entries idx secId startType "start"
      sections := st.sections ++ [sec]
      openById := st.openById ++ [(anonKey secId, pos)] }
  | none =>
    match (st.openById.map Prod.fst).filter isAnonKey with
    | [] => st
    | aks =>
      match lookupKey st.openById (aks.getLastD (.str "")) with
      | none => st
      | some si =>
        let sec := st.sections.getD si default
        { entries := annotate st.entries idx sec.id sec.type "inside"
          sections := st.sections.set si { sec with entries := sec.entries + 1 }
          openById := st.openById }

/-- End pattern for an identifier-less record: close the most recently
opened open section whose type matches, at `idx`. -/
def noTfidEndCheck (st : TrackState) (idx : Nat) (blob : String) : TrackState :=
  match detect_section_end blob with
  | none => st
  | some endType =>
    match st.openById.filter (fun kv => (st.sections.getD kv.2 default).type == endType) with
    | [] => st
    | cands =>
      let lastKey := (cands.getLastD (.str "", 0)).1
      let si := (cands.getLastD (.str "", 0)).2
      let sec := st.sections.getD si default
      let entry := st.entries.getD idx default
      { entries := annotate st.entries idx sec.id sec.type "end"
        sections := st.sections.set si { sec with end_index := some idx, end_ts := some entry.timestamp }
        openById := removeKey st.openById lastKey }

/-- The branch of the loop for a record with no (truthy) `tf_req_id`:
close all open sections at the previous index, then the fallback
heuristics. -/
def noTfidStep (st : TrackState) (idx : Nat) (blob : String) : TrackState :=
  noTfidEndCheck
    (noTfidStartOrAttach (closeMany st (st.openById.map Prod.fst) (idx - 1)) idx blob)
    idx blob

/-- `tf_req_id` of the record at `idx` (the exact-key lookup of
`parse_log_file`). -/
def tfidOfEntry (e : Entry) : Option Jval := pyGet e.json "tf_req_id"

/-- One iteration of the main loop of `parse_log_file`. -/
def trackStep (st : TrackState) (idx : Nat) : TrackState :=
  match tfidOfEntry (st.entries.getD idx default) with
  | some v =>
    if v.truthy then tfidStep st idx v (textBlob (st.entries.getD idx default))
    else noTfidStep st idx (textBlob (st.entries.getD idx default))
  | none => noTfidStep st idx (textBlob (st.entries.getD idx default))

/-- The state after the first `n` loop iterations on entry list `es`. -/
def afterSteps (es : List Entry) (n : Nat) : TrackState :=
  (List.range n).foldl trackStep ⟨es, [], []⟩

/-- The `section_event` written by the end-of-stream close: keep an
already-assigned truthy event, else `"end"`. -/
def pyOrEnd : Option String → String
  | some s => if s ≠ "" then s else "end"
  | none => "end"

/-- The record annotation written by the end-of-stream close: the
section id and type, and the event through `pyOrEnd`. -/
def annotateEof (es : List Entry) (i : Nat) (sid : Nat) (stype : String) : List Entry :=
  match es.get? i with
  | some e => es.set i { e with section_id := some sid, section_type := some stype,
                                section_event := some (pyOrEnd e.section_event) }
  | none => es

/-- One iteration of the end-of-stream close loop. -/
def eofStep (lastIdx : Nat) (s : TrackState) (kv : Jval × Nat) : TrackState :=
  if (s.sections.getD kv.2 default).end_index = none then
    { entries := annotateEof s.entries lastIdx (s.sections.getD kv.2 default).id
        (s.sections.getD kv.2 default).type
      sections := s.sections.set kv.2
        { s.sections.getD kv.2 default with
          end_index := some lastIdx
          end_ts := some (if lastIdx < s.entries.length then (s.entries.getD lastIdx default).timestamp
                          else (s.sections.getD kv.2 default).start_ts) }
      openById := s.openById }
  else s

/-- The end-of-stream close: every still-open section ends at the final
record (snapshot iteration over `open_by_id.items()`). -/
def eofClose (st : TrackState) : TrackState :=
  if st.openById.isEmpty then st
  else
    let st' := st.openById.foldl (eofStep (st.entries.length - 1)) st
    { st' with openById := [] }

/-- `parse_log_file` on already-parsed payloads: normalize each record
(threading the resolver state `last0`), run the tracker loop over all
indices, close at end of stream.  Returns the annotated entries, the
section table, and the final resolver state; `none` is an uncaught
exception. -/
def parse_log_file (objs : List Payload) (last0 : Option String) :
    Option (List Entry × List Section × Option String) :=
  match collectEntries objs last0 with
  | none => none
  | some (es, lastF) =>
    let st := eofClose (afterSteps es es.length)
    some (st.entries, st.sections, lastF)

/-! ## Derived forms and helper definitions for the statements -/

/-- A record with its tracker annotations removed. -/
def eraseAnn (e : Entry) : Entry :=
  { e with section_id := none, section_type := none, section_event := none }

/-- The `section_event` annotation of record `j` in an entry list. -/
def evAt (es : List Entry) (j : Nat) : Option String := (es.getD j default).section_event

/-- The resolver state after normalizing a list of payloads in order. -/
def resolverAfter (last : Option String) : List Payload → Option String
  | [] => last
  | d :: ds => resolverAfter (normalize_timestamp last (tsArgOf d)).2 ds

/-! ## Resolver lemmas -/

theorem normalize_timestamp_eq (last ts) :
    normalize_timestamp last ts =
      match tsSuccess ts with
      | some iso => (iso, some iso)
      | none => carryOr last := by
  cases ts with
  | none => rfl
  | some s0 =>
    show (if (pyStrip s0.data).isEmpty then carryOr last else _) =
      (match (if (pyStrip s0.data).isEmpty then none else tsParse s0) with
       | some iso => (iso, some iso)
       | none => carryOr last)
    split
    · rfl
    · cases tsParse s0 <;> rfl

theorem isoformat_ne_nil (dt : PyDateTime) : isoformat dt ≠ [] := by
  intro h
  simp only [isoformat, List.append_eq_nil, List.cons_ne_nil, and_false, false_and] at h

theorem mk_ne_empty {l : List Char} (h : l ≠ []) : String.mk l ≠ "" := by
  intro he
  exact h (congrArg String.data he)

theorem tsParse_ne_empty {s0 : String} {T : String} (h : tsParse s0 = some T) : T ≠ "" := by
  unfold tsParse at h
  split at h
  · cases h
    exact mk_ne_empty (isoformat_ne_nil _)
  · split at h
    · split at h
      · cases h
        exact mk_ne_empty (isoformat_ne_nil _)
      · cases h
    · cases h

theorem tsSuccess_ne_empty {ts T} (h : tsSuccess ts = some T) : T ≠ "" := by
  cases ts with
  | none => cases h
  | some s0 =>
    replace h : (if (pyStrip s0.data).isEmpty then none else tsParse s0) = some T := h
    split at h
    · cases h
    · exact tsParse_ne_empty h

/-- A successful parse makes the output independent of the carried state. -/
theorem normalize_timestamp_of_success {ts T} (h : tsSuccess ts = some T) (last : Option String) :
    normalize_timestamp last ts = (T, some T) := by
  rw [normalize_timestamp_eq, h]

/-- A failed parse returns the carried state. -/
theorem normalize_timestamp_of_carry {ts} (h : tsSuccess ts = none) (last : Option String) :
    normalize_timestamp last ts = carryOr last := by
  rw [normalize_timestamp_eq, h]

theorem carryOr_of_truthy {T : String} (h : T ≠ "") : carryOr (some T) = (T, some T) := by
  unfold carryOr lastTruthy
  simp [h]

/-! ## Collection-loop lemmas -/

theorem parse_entry_spec {last d e l'} (h : parse_entry_from_dict last d = some (e, l')) :
    e.timestamp = (normalize_timestamp last (tsArgOf d)).1 ∧
    l' = (normalize_timestamp last (tsArgOf d)).2 ∧
    e.section_id = none ∧ e.section_type = none ∧ e.section_event = none := by
  unfold parse_entry_from_dict at h
  rcases hr : extract_resource_from_message (msgOf d) with - | r <;> rw [hr] at h
  · cases h
  · rcases hn : normalize_timestamp last (tsArgOf d) with ⟨ts, la⟩
    rw [hn] at h
    cases h
    exact ⟨rfl, rfl, rfl, rfl, rfl⟩

/-- Characterization of the collection loop: lengths agree, the final
resolver state is `resolverAfter`, and record `i` is the parse of
payload `i` under the resolver state accumulated over the prefix. -/
theorem collect_spec :
    ∀ (objs : List Payload) (last : Option String) (es : List Entry) (lastF : Option String),
    collectEntries objs last = some (es, lastF) →
    es.length = objs.length ∧ lastF = resolverAfter last objs ∧
    ∀ i, i < objs.length →
      parse_entry_from_dict (resolverAfter last (objs.take i)) (objs.getD i [])
        = some (es.getD i default, resolverAfter last (objs.take (i + 1))) := by
  intro objs
  induction objs with
  | nil =>
    intro last es lastF h
    cases h
    exact ⟨rfl, rfl, by intro i hi; cases hi⟩
  | cons d ds ih =>
    intro last es lastF h
    unfold collectEntries at h
    cases h1 : parse_entry_from_dict last d with
    | none =>
      rw [h1] at h
      replace h : (none : Option (List Entry × Option String)) = some (es, lastF) := h
      cases h
    | some p =>
      obtain ⟨e, l₁⟩ := p
      rw [h1] at h
      replace h : (match collectEntries ds l₁ with
                   | none => none
                   | some (es, lastF) => some (e :: es, lastF)) = some (es, lastF) := h
      cases h2 : collectEntries ds l₁ with
      | none =>
        rw [h2] at h
        replace h : (none : Option (List Entry × Option String)) = some (es, lastF) := h
        cases h
      | some q =>
        obtain ⟨es', lf⟩ := q
        rw [h2] at h
        replace h : some (e :: es', lf) = some (es, lastF) := h
        obtain ⟨h3, h4⟩ : e :: es' = es ∧ lf = lastF := by
          cases h; exact ⟨rfl, rfl⟩
        subst h3
        subst h4
        obtain ⟨hlen, hlast, hidx⟩ := ih l₁ es' lf h2
        have hl₁ : l₁ = (normalize_timestamp last (tsArgOf d)).2 := (parse_entry_spec h1).2.1
        have hres : ∀ t, resolverAfter last (d :: t) = resolverAfter l₁ t := by
          intro t
          show resolverAfter (normalize_timestamp last (tsArgOf d)).2 t = _
          rw [← hl₁]
        refine ⟨by simpa using hlen, by rw [hres ds]; exact hlast, ?_⟩
        intro i hi
        cases i with
        | zero =>
          have h1' := h1
          rw [hl₁] at h1'
          simpa [resolverAfter] using h1'
        | succ i =>
          have hi' : i < ds.length := by simpa using hi
          simpa [List.take_succ_cons, List.getD_cons_succ, hres] using hidx i hi'

/-- The resolver state over a prefix advances by one normalization. -/
theorem resolverAfter_take_succ :
    ∀ (objs : List Payload) (last : Option String) (i : Nat), i < objs.length →
    resolverAfter last (objs.take (i + 1)) =
      (normalize_timestamp (resolverAfter last (objs.take i)) (tsArgOf (objs.getD i []))).2 := by
  intro objs
  induction objs with
  | nil => intro last i hi; cases hi
  | cons d ds ih =>
    intro last i hi
    cases i with
    | zero => rfl
    | succ i =>
      have hi' : i < ds.length := by simpa using hi
      simpa [List.take_succ_cons, resolverAfter] using ih _ i hi'

/-- Records that fail to parse do not move the resolver state once it
holds a non-empty value. -/
theorem carry_chain :
    ∀ (objs : List Payload) (last0 : Option String) (T : String) (j k : Nat),
    j < k → k ≤ objs.length →
    resolverAfter last0 (objs.take (j + 1)) = some T → T ≠ "" →
    (∀ m, j < m → m < k → tsSuccess (tsArgOf (objs.getD m [])) = none) →
    resolverAfter last0 (objs.take k) = some T := by
  intro objs last0 T j k
  induction k with
  | zero => intro hjk; cases hjk
  | succ k ihk =>
    intro hjk hk hstart hT hmid
    rcases Nat.lt_or_ge j k with hjk' | hge
    · have hk' : k ≤ objs.length := Nat.le_of_succ_le hk
      have prev : resolverAfter last0 (objs.take k) = some T :=
        ihk hjk' hk' hstart hT (fun m h1 h2 => hmid m h1 (Nat.lt_succ_of_lt h2))
      have hklen : k < objs.length := hk
      rw [resolverAfter_take_succ objs last0 k hklen, prev,
          normalize_timestamp_of_carry (hmid k hjk' (Nat.lt_succ_self k)), carryOr_of_truthy hT]
    · have : j = k := Nat.le_antisymm (Nat.le_of_lt_succ hjk) hge
      subst this
      exact hstart

/-- A record whose timestamp parses is normalized independently of the
carried resolver state. -/
theorem parse_entry_state_indep {d : Payload} {T : String}
    (h : tsSuccess (tsArgOf d) = some T) (last : Option String) :
    parse_entry_from_dict last d = parse_entry_from_dict none d := by
  unfold parse_entry_from_dict
  simp only [normalize_timestamp_of_success h]

/-! ## Concrete payloads used by the scenario claims -/

def tsPayload : Payload := [("@timestamp", .str "2020-01-01T00:00:00")]
def emptyPayload : Payload := []
def p9000 : Payload := [("@timestamp", .str "9000-01-01 00:00:00")]

/-! ## Claim theorems -/

/-- Claim C2: timestamp carry-forward.  For every stream that the
normalizer processes to completion, if record `k`'s timestamp argument
does not parse, record `j < k` parses to `T`, and every record strictly
between them fails to parse, then record `k` is assigned timestamp
`T`. -/
theorem claim_C2 (objs : List Payload) (last0 : Option String) (es : List Entry)
    (lastF : Option String) (j k : Nat) (T : String)
    (hc : collectEntries objs last0 = some (es, lastF))
    (hjk : j < k) (hk : k < objs.length)
    (hj : tsSuccess (tsArgOf (objs.getD j [])) = some T)
    (hmid : ∀ m, j < m → m < k → tsSuccess (tsArgOf (objs.getD m [])) = none)
    (hk0 : tsSuccess (tsArgOf (objs.getD k [])) = none) :
    (es.getD k default).timestamp = T := by
  obtain ⟨-, -, hidx⟩ := collect_spec objs last0 es lastF hc
  have hj' : j < objs.length := Nat.lt_trans hjk hk
  have hstart : resolverAfter last0 (objs.take (j + 1)) = some T := by
    rw [resolverAfter_take_succ objs last0 j hj', normalize_timestamp_of_success hj]
  have hT : T ≠ "" := tsSuccess_ne_empty hj
  have hstate : resolverAfter last0 (objs.take k) = some T :=
    carry_chain objs last0 T j k hjk (Nat.le_of_lt hk) hstart hT hmid
  have hts := (parse_entry_spec (hidx k hk)).1
  rw [hts, hstate, normalize_timestamp_of_carry hk0, carryOr_of_truthy hT]

/-- Witness for C2 at the concrete stream
`[{"@timestamp": "2020-01-01T00:00:00"}, {}, {}]` with `j = 0`,
`k = 2`. -/
theorem claim_C2_witness :
    (collectEntries [tsPayload, emptyPayload, emptyPayload] none).map
        (fun r => (r.1.getD 2 default).timestamp) = some "2020-01-01T00:00:00" := by
  rcases hc : collectEntries [tsPayload, emptyPayload, emptyPayload] none with - | ⟨es, lastF⟩
  · exact absurd hc (by decide)
  · have h := claim_C2 [tsPayload, emptyPayload, emptyPayload] none es lastF 0 2
      "2020-01-01T00:00:00" hc (by decide) (by decide) (by decide)
      (by
        intro m h1 h2
        have hm : m = 1 := by omega
        subst hm
        decide)
      (by decide)
    show some ((es.getD 2 default).timestamp) = some "2020-01-01T00:00:00"
    rw [h]

/-- Counterexample for C5: the resolver state is a process-global
function attribute that `parse_log_file` never resets, so the carried
timestamp of one stream leaks into the next.  Processing the
single-record stream `[{}]` after a stream that resolved
`2020-01-01T00:00:00` yields that leaked timestamp, while a fresh
process yields the sentinel. -/
theorem claim_C5_cex :
    (parse_log_file [tsPayload] none).bind
        (fun r1 => (parse_log_file [emptyPayload] r1.2.2).map
          (fun r2 => (r2.1.getD 0 default).timestamp)) = some "2020-01-01T00:00:00" ∧
    (parse_log_file [emptyPayload] none).map
        (fun r2 => (r2.1.getD 0 default).timestamp) = some markerTs ∧
    markerTs ≠ "2020-01-01T00:00:00" := by
  refine ⟨by decide, by decide, by decide⟩

/-- Claim C5 as amended: the resolver state persists across streams in
one process; a later stream is processed independently of it exactly
when the leak cannot reach any record — in particular, whenever the
stream's first record has a successfully parsing timestamp, the run
equals a fresh-process run. -/
theorem claim_C5 (p0 : Payload) (rest : List Payload) (st : Option String) (T : String)
    (h : tsSuccess (tsArgOf p0) = some T) :
    parse_log_file (p0 :: rest) st = parse_log_file (p0 :: rest) none := by
  unfold parse_log_file
  have : collectEntries (p0 :: rest) st = collectEntries (p0 :: rest) none := by
    unfold collectEntries
    rw [parse_entry_state_indep h st]
  rw [this]

/-- Witness for C5 at a parseable first record and a leaked state. -/
theorem claim_C5_witness :
    parse_log_file [tsPayload] (some "1999-01-01T00:00:00") = parse_log_file [tsPayload] none := by
  exact claim_C5 tsPayload [] (some "1999-01-01T00:00:00") "2020-01-01T00:00:00" (by decide)

/-- Counterexample for C7's sorting clause: the record
`{"@timestamp": "9000-01-01 00:00:00"}` resolves to the real timestamp
`9000-01-01T00:00:00`, which sorts strictly after the sentinel in the
string order used by the sorter: the sentinel does not sort after every
real timestamp. -/
theorem claim_C7_cex :
    (collectEntries [p9000] none).map (fun r => (r.1.getD 0 default).timestamp) =
      some "9000-01-01T00:00:00" ∧
    pyStrLt markerTs "9000-01-01T00:00:00" = true ∧
    pyStrLt "9000-01-01T00:00:00" markerTs = false := by
  refine ⟨by decide, by decide, by decide⟩

/-- Claim C7 as amended: a first record with no parseable timestamp and
no prior value resolves to the non-empty far-future sentinel
`8999-12-31T23:59:59.999999`; the sentinel is not maximal in the sort
order — real timestamps of the years 9000–9999 sort after it. -/
theorem claim_C7 :
    (∀ (p0 : Payload) (rest : List Payload) (es : List Entry) (lastF : Option String),
      tsSuccess (tsArgOf p0) = none →
      collectEntries (p0 :: rest) none = some (es, lastF) →
      (es.getD 0 default).timestamp = markerTs) ∧
    markerTs ≠ "" ∧
    pyStrLt markerTs "9000-01-01T00:00:00" = true := by
  refine ⟨?_, by decide, by decide⟩
  intro p0 rest es lastF h0 hc
  obtain ⟨-, -, hidx⟩ := collect_spec _ _ _ _ hc
  have hts := (parse_entry_spec (hidx 0 (by simp))).1
  have hcar : normalize_timestamp (resolverAfter none ((p0 :: rest).take 0))
      (tsArgOf ((p0 :: rest).getD 0 [])) = (markerTs, some markerTs) := by
    show normalize_timestamp none (tsArgOf p0) = _
    rw [normalize_timestamp_of_carry h0]
    decide
  rw [hts, hcar]

/-- Witness for C7's universal part at the single-record stream `[{}]`. -/
theorem claim_C7_witness :
    (collectEntries [emptyPayload] none).map (fun r => (r.1.getD 0 default).timestamp) =
      some markerTs := by
  rcases hc : collectEntries [emptyPayload] none with - | ⟨es, lastF⟩
  · exact absurd hc (by decide)
  · have h := claim_C7.1 emptyPayload [] es lastF (by decide) hc
    show some ((es.getD 0 default).timestamp) = some markerTs
    rw [h]

/-! ## Entry-list invariance under the tracker -/

theorem set_get?_self {α} (l : List α) (i : Nat) (a : α) (h : l.get? i = some a) :
    l.set i a = l := by
  apply List.ext_getElem?
  intro n
  rw [List.get?_eq_getElem?] at h
  by_cases hn : i = n
  · subst hn
    have hlen : i < l.length := by
      by_contra hno
      rw [List.getElem?_eq_none (Nat.le_of_not_lt hno)] at h
      cases h
    rw [List.getElem?_set_self hlen, h]
  · rw [List.getElem?_set_ne hn]

theorem map_eraseAnn_annotate (es : List Entry) (i sid : Nat) (t ev : String) :
    (annotate es i sid t ev).map eraseAnn = es.map eraseAnn := by
  unfold annotate
  cases h : es.get? i with
  | none => rfl
  | some e =>
    rw [List.map_set]
    apply set_get?_self
    rw [List.get?_eq_getElem?, List.getElem?_map, ← List.get?_eq_getElem?, h]
    rfl

theorem map_eraseAnn_annotateEof (es : List Entry) (i sid : Nat) (t : String) :
    (annotateEof es i sid t).map eraseAnn = es.map eraseAnn := by
  unfold annotateEof
  cases h : es.get? i with
  | none => rfl
  | some e =>
    rw [List.map_set]
    apply set_get?_self
    rw [List.get?_eq_getElem?, List.getElem?_map, ← List.get?_eq_getElem?, h]
    rfl

theorem closeSectionById_eraseAnn (st : TrackState) (k : Jval) (c : Nat) :
    (closeSectionById st k c).entries.map eraseAnn = st.entries.map eraseAnn := by
  unfold closeSectionById
  split
  · rfl
  · exact map_eraseAnn_annotate ..

theorem closeMany_eraseAnn (ks : List Jval) :
    ∀ (st : TrackState) (c : Nat),
    (closeMany st ks c).entries.map eraseAnn = st.entries.map eraseAnn := by
  induction ks with
  | nil => intro st c; rfl
  | cons k ks ih =>
    intro st c
    show (closeMany (closeSectionById st k c) ks c).entries.map eraseAnn = _
    rw [ih, closeSectionById_eraseAnn]

theorem tfidOpenOrInside_eraseAnn (st : TrackState) (idx : Nat) (tfid : Jval) (blob : String) :
    (tfidOpenOrInside st idx tfid blob).entries.map eraseAnn = st.entries.map eraseAnn := by
  unfold tfidOpenOrInside
  split <;> exact map_eraseAnn_annotate ..

theorem tfidEndCheck_eraseAnn (st : TrackState) (idx : Nat) (tfid : Jval) (blob : String) :
    (tfidEndCheck st idx tfid blob).entries.map eraseAnn = st.entries.map eraseAnn := by
  unfold tfidEndCheck
  split
  · rfl
  · split
    · rfl
    · split
      · exact closeSectionById_eraseAnn ..
      · rfl

theorem noTfidStartOrAttach_eraseAnn (st : TrackState) (idx : Nat) (blob : String) :
    (noTfidStartOrAttach st idx blob).entries.map eraseAnn = st.entries.map eraseAnn := by
  unfold noTfidStartOrAttach
  split
  · exact map_eraseAnn_annotate ..
  · split
    · rfl
    · split
      · rfl
      · exact map_eraseAnn_annotate ..

theorem noTfidEndCheck_eraseAnn (st : TrackState) (idx : Nat) (blob : String) :
    (noTfidEndCheck st idx blob).entries.map eraseAnn = st.entries.map eraseAnn := by
  unfold noTfidEndCheck
  split
  · rfl
  · split
    · rfl
    · exact map_eraseAnn_annotate ..

theorem trackStep_eraseAnn (st : TrackState) (idx : Nat) :
    (trackStep st idx).entries.map eraseAnn = st.entries.map eraseAnn := by
  unfold trackStep tfidStep noTfidStep
  split
  · split
    · rw [tfidEndCheck_eraseAnn, tfidOpenOrInside_eraseAnn, closeMany_eraseAnn]
    · rw [noTfidEndCheck_eraseAnn, noTfidStartOrAttach_eraseAnn, closeMany_eraseAnn]
  · rw [noTfidEndCheck_eraseAnn, noTfidStartOrAttach_eraseAnn, closeMany_eraseAnn]

theorem eofStep_eraseAnn (lastIdx : Nat) (s : TrackState) (kv : Jval × Nat) :
    (eofStep lastIdx s kv).entries.map eraseAnn = s.entries.map eraseAnn := by
  unfold eofStep
  split
  · exact map_eraseAnn_annotateEof ..
  · rfl

theorem eofFold_eraseAnn (ks : List (Jval × Nat)) :
    ∀ (lastIdx : Nat) (s : TrackState),
    (ks.foldl (eofStep lastIdx) s).entries.map eraseAnn = s.entries.map eraseAnn := by
  induction ks with
  | nil => intro lastIdx s; rfl
  | cons kv ks ih =>
    intro lastIdx s
    show ((ks.foldl (eofStep lastIdx) (eofStep lastIdx s kv)).entries.map eraseAnn) = _
    rw [ih, eofStep_eraseAnn]

theorem eofClose_eraseAnn (st : TrackState) :
    (eofClose st).entries.map eraseAnn = st.entries.map eraseAnn := by
  unfold eofClose
  split
  · rfl
  · exact eofFold_eraseAnn ..

theorem afterSteps_succ (es : List Entry) (n : Nat) :
    afterSteps es (n + 1) = trackStep (afterSteps es n) n := by
  unfold afterSteps
  rw [List.range_succ, List.foldl_append]
  rfl

theorem afterSteps_eraseAnn (es : List Entry) :
    ∀ n, (afterSteps es n).entries.map eraseAnn = es.map eraseAnn := by
  intro n
  induction n with
  | zero => rfl
  | succ n ih => rw [afterSteps_succ, trackStep_eraseAnn, ih]

/-- Records coming out of the normalizer carry no annotations, so
erasing is the identity on them. -/
theorem eraseAnn_id {e : Entry} (h1 : e.section_id = none) (h2 : e.section_type = none)
    (h3 : e.section_event = none) : eraseAnn e = e := by
  cases e
  simp only [eraseAnn]
  simp_all

theorem collect_eraseAnn (objs : List Payload) (last : Option String) (es : List Entry)
    (lastF : Option String) (hc : collectEntries objs last = some (es, lastF)) :
    es.map eraseAnn = es := by
  obtain ⟨hlen, -, hidx⟩ := collect_spec objs last es lastF hc
  apply List.ext_getElem?
  intro i
  rw [List.getElem?_map]
  cases hesi : es[i]? with
  | none => rfl
  | some e =>
    have hi : i < objs.length := by
      rw [← hlen]
      by_contra hno
      rw [List.getElem?_eq_none (Nat.le_of_not_lt hno)] at hesi
      cases hesi
    obtain ⟨-, -, ha, hb, hev⟩ := parse_entry_spec (hidx i hi)
    have hgd : es.getD i default = e := by simp [List.getD, hesi]
    rw [hgd] at ha hb hev
    simp [eraseAnn_id ha hb hev]

def crashPayload : Payload := [("@message", .str "vertex \" \"")]

/-- Counterexample for C3 as stated over every input sequence: on the
one-record stream `[{"@message": "vertex \" \""}]` the engine raises
(`candidate.split()[0]` on an all-whitespace vertex group) and produces
no output sequence at all, so the output does not have the input's
length. -/
theorem claim_C3_cex : parse_log_file [crashPayload] none = none := by
  rfl

/-- Claim C3 as amended: for every input sequence on which the engine
does not raise, the output record sequence has exactly the input's
length, and the record at output position `i` is the normalized form of
the input payload at position `i` (its tracker annotations erased, it
equals the output of `parse_entry_from_dict` on payload `i` under the
resolver state accumulated over the prefix). -/
theorem claim_C3 (objs : List Payload) (last0 : Option String) (es : List Entry)
    (secs : List Section) (lastF : Option String)
    (h : parse_log_file objs last0 = some (es, secs, lastF)) :
    es.length = objs.length ∧
    ∀ i, i < objs.length →
      ∃ e', parse_entry_from_dict (resolverAfter last0 (objs.take i)) (objs.getD i [])
              = some (e', resolverAfter last0 (objs.take (i + 1))) ∧
            eraseAnn (es.getD i default) = e' := by
  unfold parse_log_file at h
  cases hc : collectEntries objs last0 with
  | none => rw [hc] at h; cases h
  | some p =>
    obtain ⟨es0, lf⟩ := p
    rw [hc] at h
    replace h : some ((eofClose (afterSteps es0 es0.length)).entries,
        (eofClose (afterSteps es0 es0.length)).sections, lf) = some (es, secs, lastF) := h
    obtain ⟨h1, -, -⟩ : (eofClose (afterSteps es0 es0.length)).entries = es ∧
        (eofClose (afterSteps es0 es0.length)).sections = secs ∧ lf = lastF := by
      cases h; exact ⟨rfl, rfl, rfl⟩
    obtain ⟨hlen0, -, hidx⟩ := collect_spec objs last0 es0 lf hc
    have hmap : es.map eraseAnn = es0 := by
      rw [← h1, eofClose_eraseAnn, afterSteps_eraseAnn,
          collect_eraseAnn objs last0 es0 lf hc]
    have hlen : es.length = objs.length := by
      rw [← hlen0, ← hmap, List.length_map]
    refine ⟨hlen, ?_⟩
    intro i hi
    refine ⟨es0.getD i default, hidx i hi, ?_⟩
    have h2 : (es.map eraseAnn)[i]? = es0[i]? := by rw [hmap]
    rw [List.getElem?_map] at h2
    have hilt : i < es.length := by rw [hlen]; exact hi
    have hgd : es.getD i default = es[i] := by
      simp [List.getD, List.getElem?_eq_getElem hilt]
    have hsome : es[i]? = some (es.getD i default) := by
      rw [List.getElem?_eq_getElem hilt, hgd]
    rw [hsome] at h2
    have hgd0 : es0.getD i default = (es0[i]?).getD default := by simp [List.getD]
    rw [hgd0, ← h2]
    rfl

/-! ## The closing rule for an identifier switch (claim C1) -/

theorem lookupKey_single_self (k : Jval) (si : Nat) : lookupKey [(k, si)] k = some si := by
  simp [lookupKey]

theorem removeKey_single_self (k : Jval) (si : Nat) : removeKey [(k, si)] k = [] := by
  simp [removeKey]

/-- When exactly one section is open, keyed `k`, and the record at
`idx` carries a truthy identifier `v ≠ k`, the step closes `k`'s
section with `end_index = idx - 1` and `end_ts` from the record at that
index. -/
theorem close_on_switch (st : TrackState) (idx si : Nat) (k v : Jval)
    (hopen : st.openById = [(k, si)])
    (hsi : si < st.sections.length)
    (hv : tfidOfEntry (st.entries.getD idx default) = some v)
    (htr : v.truthy = true)
    (hne : v ≠ k)
    (hidx : idx < st.entries.length) :
    (trackStep st idx).sections[si]? =
      some { st.sections.getD si default with
             end_index := some (idx - 1),
             end_ts := some ((st.entries.getD (idx - 1) default).timestamp) } := by
  have hkv : (k != v) = true := bne_iff_ne.mpr (Ne.symm hne)
  have hsub : idx - 1 < st.entries.length := lt_of_le_of_lt (Nat.sub_le idx 1) hidx
  -- the step takes the tfid branch
  have e1 : trackStep st idx =
      tfidStep st idx v (textBlob (st.entries.getD idx default)) := by
    unfold trackStep
    rw [hv]
    simp only [htr, if_true]
  -- the close-others stage closes k's section and empties the open table
  have e2 : closeMany st ((st.openById.map Prod.fst).filter (fun x => x != v)) (idx - 1) =
      { entries := annotate st.entries (idx - 1) (st.sections.getD si default).id
          (st.sections.getD si default).type "end",
        sections := st.sections.set si { st.sections.getD si default with
          end_index := some (idx - 1),
          end_ts := some ((st.entries.getD (idx - 1) default).timestamp) },
        openById := [] } := by
    rw [hopen]
    show closeMany st ([k].filter (fun x => x != v)) (idx - 1) = _
    rw [show [k].filter (fun x => x != v) = [k] from by simp [List.filter, hkv]]
    show closeSectionById st k (idx - 1) = _
    unfold closeSectionById
    rw [hopen, lookupKey_single_self, removeKey_single_self]
    simp only [hsub, if_true]
  rw [e1]
  unfold tfidStep
  -- name the state after the close-others stage
  obtain ⟨st1, hgen⟩ : ∃ s, closeMany st ((st.openById.map Prod.fst).filter
      (fun x => x != v)) (idx - 1) = s := ⟨_, rfl⟩
  rw [hgen]
  have hsival : st1.sections[si]? =
      some { st.sections.getD si default with
             end_index := some (idx - 1),
             end_ts := some ((st.entries.getD (idx - 1) default).timestamp) } := by
    rw [← hgen, e2]
    exact List.getElem?_set_self (by simpa using hsi)
  have hlen1 : st1.sections.length = st.sections.length := by
    rw [← hgen, e2]
    simp
  have hopen1 : st1.openById = [] := by rw [← hgen, e2]
  -- facts about the open stage: a fresh section for v is appended, the
  -- open table becomes exactly v's binding, position si is untouched
  have hopen2 : ∀ blob, (tfidOpenOrInside st1 idx v blob).openById =
      [(v, st1.sections.length)] := by
    intro blob
    unfold tfidOpenOrInside
    rw [show lookupKey st1.openById v = none from by rw [hopen1]; rfl, hopen1]
    rfl
  have hsec2 : ∀ blob, (tfidOpenOrInside st1 idx v blob).sections[si]? =
      st1.sections[si]? := by
    intro blob
    unfold tfidOpenOrInside
    rw [show lookupKey st1.openById v = none from by rw [hopen1]; rfl]
    show (st1.sections ++ _)[si]? = _
    rw [List.getElem?_append_left (by rw [hlen1]; exact hsi)]
  -- the end check can only close v's freshly opened section, whose
  -- position st1.sections.length differs from si
  unfold tfidEndCheck
  split
  · rw [hsec2, hsival]
  · rw [hopen2, lookupKey_single_self]
    show (if _ = _ then closeSectionById (tfidOpenOrInside st1 idx v _) v idx else _).sections[si]? = _
    split
    · unfold closeSectionById
      rw [hopen2, lookupKey_single_self]
      show ((tfidOpenOrInside st1 idx v _).sections.set (st1.sections.length) _)[si]? = _
      rw [List.getElem?_set_ne (by omega), hsec2, hsival]
    · rw [hsec2, hsival]

def pA : Payload := [("tf_req_id", .str "a")]
def pB : Payload := [("tf_req_id", .str "b")]

/-! ## Supporting lemmas about the open-section table -/

theorem annotate_length (es : List Entry) (i sid : Nat) (t ev : String) :
    (annotate es i sid t ev).length = es.length := by
  unfold annotate
  split <;> simp

theorem closeSectionById_sections_length (s : TrackState) (k : Jval) (c : Nat) :
    (closeSectionById s k c).sections.length = s.sections.length := by
  unfold closeSectionById
  split <;> simp

theorem closeSectionById_entries_length (s : TrackState) (k : Jval) (c : Nat) :
    (closeSectionById s k c).entries.length = s.entries.length := by
  unfold closeSectionById
  split
  · rfl
  · simp [annotate_length]

theorem closeMany_sections_length (ks : List Jval) :
    ∀ (s : TrackState) (c : Nat), (closeMany s ks c).sections.length = s.sections.length := by
  induction ks with
  | nil => intro s c; rfl
  | cons k ks ih =>
    intro s c
    show (closeMany (closeSectionById s k c) ks c).sections.length = _
    rw [ih, closeSectionById_sections_length]

theorem closeMany_entries_length (ks : List Jval) :
    ∀ (s : TrackState) (c : Nat), (closeMany s ks c).entries.length = s.entries.length := by
  induction ks with
  | nil => intro s c; rfl
  | cons k ks ih =>
    intro s c
    show (closeMany (closeSectionById s k c) ks c).entries.length = _
    rw [ih, closeSectionById_entries_length]

theorem lookupKey_filter_none (m : List (Jval × Nat)) (p : Jval × Nat → Bool) (v : Jval)
    (h : lookupKey m v = none) : lookupKey (m.filter p) v = none := by
  unfold lookupKey at h ⊢
  cases hf : (m.filter p).find? (fun kv => kv.1 == v) with
  | none => rfl
  | some kv =>
    exfalso
    have hmem : kv ∈ m.filter p := List.mem_of_find?_eq_some hf
    have hkey := List.find?_some hf
    have hmem' : kv ∈ m := (List.mem_filter.mp hmem).1
    cases hm : m.find? (fun kv => kv.1 == v) with
    | none =>
      exact (List.find?_eq_none.mp hm kv hmem') hkey
    | some kv' => rw [hm] at h; cases h

theorem closeSectionById_lookup_none (s : TrackState) (k v : Jval) (c : Nat)
    (h : lookupKey s.openById v = none) :
    lookupKey (closeSectionById s k c).openById v = none := by
  unfold closeSectionById
  split
  · exact h
  · exact lookupKey_filter_none _ _ _ h

theorem closeMany_lookup_none (ks : List Jval) :
    ∀ (s : TrackState) (c : Nat) (v : Jval), lookupKey s.openById v = none →
    lookupKey (closeMany s ks c).openById v = none := by
  induction ks with
  | nil => intro s c v h; exact h
  | cons k ks ih =>
    intro s c v h
    show lookupKey (closeMany (closeSectionById s k c) ks c).openById v = none
    exact ih _ _ _ (closeSectionById_lookup_none s k v c h)

theorem lookupKey_append_single (m : List (Jval × Nat)) (v : Jval) (pos : Nat)
    (h : lookupKey m v = none) : lookupKey (m ++ [(v, pos)]) v = some pos := by
  unfold lookupKey at h ⊢
  induction m with
  | nil => simp [List.find?]
  | cons kv m ih =>
    rw [List.cons_append] at *
    cases hk : kv.1 == v with
    | true =>
      simp only [List.find?, hk] at h
      cases h
    | false =>
      simp only [List.find?, hk] at h ⊢
      exact ih h

theorem evAt_annotate_self (es : List Entry) (i sid : Nat) (t ev : String)
    (h : i < es.length) : evAt (annotate es i sid t ev) i = some ev := by
  unfold annotate evAt
  cases hg : es.get? i with
  | none =>
    rw [List.get?_eq_getElem?] at hg
    rw [List.getElem?_eq_getElem h] at hg
    cases hg
  | some e =>
    simp [List.getD, List.getElem?_set_self h]

/-- The immediate-close rule: a record whose truthy identifier `v` has
no open section and whose text matches a start and an end pattern of
the same type `t` produces, in one step, a section for `v` of type `t`
with `start_index = end_index = idx`, and the record's final event is
`"end"`. -/
theorem immediate_close (st : TrackState) (idx : Nat) (v : Jval) (t : String)
    (hv : tfidOfEntry (st.entries.getD idx default) = some v)
    (htr : v.truthy = true)
    (hnotopen : lookupKey st.openById v = none)
    (hstart : detect_section_start_type (textBlob (st.entries.getD idx default)) = some t)
    (hend : detect_section_end (textBlob (st.entries.getD idx default)) = some t)
    (hidx : idx < st.entries.length) :
    ∃ sec, (trackStep st idx).sections[st.sections.length]? = some sec ∧
      sec.tf_req_id = some v ∧ sec.type = t ∧ sec.start_index = idx ∧
      sec.end_index = some idx ∧
      evAt (trackStep st idx).entries idx = some "end" := by
  have e1 : trackStep st idx =
      tfidStep st idx v (textBlob (st.entries.getD idx default)) := by
    unfold trackStep
    rw [hv]
    simp only [htr, if_true]
  rw [e1]
  unfold tfidStep
  obtain ⟨st1, hgen⟩ : ∃ s, closeMany st ((st.openById.map Prod.fst).filter
      (fun x => x != v)) (idx - 1) = s := ⟨_, rfl⟩
  rw [hgen]
  have hlk1 : lookupKey st1.openById v = none := by
    rw [← hgen]
    exact closeMany_lookup_none _ _ _ _ hnotopen
  have hslen1 : st1.sections.length = st.sections.length := by
    rw [← hgen]
    exact closeMany_sections_length ..
  have helen1 : st1.entries.length = st.entries.length := by
    rw [← hgen]
    exact closeMany_entries_length ..
  obtain ⟨st2, hgen2⟩ : ∃ s,
      tfidOpenOrInside st1 idx v (textBlob (st.entries.getD idx default)) = s := ⟨_, rfl⟩
  rw [hgen2]
  have hit : inferType (textBlob (st.entries.getD idx default)) = t := by
    unfold inferType
    rw [hstart]
  obtain ⟨nsec, hn1, hn2, hn3, hn4, hn5⟩ :
      ∃ nsec, st2.sections[st1.sections.length]? = some nsec ∧ nsec.tf_req_id = some v ∧
        nsec.type = t ∧ nsec.start_index = idx ∧ nsec.end_index = none := by
    rw [← hgen2]
    unfold tfidOpenOrInside
    rw [hlk1]
    refine ⟨_, List.getElem?_concat_length .., rfl, hit, rfl, rfl⟩
  have hopen2 : st2.openById = st1.openById ++ [(v, st1.sections.length)] := by
    rw [← hgen2]
    unfold tfidOpenOrInside
    rw [hlk1]
  have hlen2 : st2.sections.length = st1.sections.length + 1 := by
    rw [← hgen2]
    unfold tfidOpenOrInside
    rw [hlk1]
    simp
  have helen2 : st2.entries.length = st1.entries.length := by
    rw [← hgen2]
    unfold tfidOpenOrInside
    rw [hlk1]
    exact annotate_length ..
  have hlk2 : lookupKey st2.openById v = some st1.sections.length := by
    rw [hopen2]
    exact lookupKey_append_single _ _ _ hlk1
  have hgd2 : st2.sections.getD st1.sections.length default = nsec := by
    simp [List.getD, hn1]
  have e3 : tfidEndCheck st2 idx v (textBlob (st.entries.getD idx default)) =
      closeSectionById st2 v idx := by
    unfold tfidEndCheck
    rw [hend, hlk2]
    show (if (st2.sections.getD st1.sections.length default).type = t
          then closeSectionById st2 v idx else st2) = _
    rw [hgd2, hn3, if_pos rfl]
  rw [e3]
  obtain ⟨st3, hgen3⟩ : ∃ s, closeSectionById st2 v idx = s := ⟨_, rfl⟩
  rw [hgen3]
  have hfin1 : st3.sections[st.sections.length]? =
      some { nsec with
             end_index := some idx,
             end_ts := some (if idx < st2.entries.length
                             then (st2.entries.getD idx default).timestamp
                             else nsec.start_ts) } := by
    rw [← hgen3]
    unfold closeSectionById
    rw [hlk2]
    show (st2.sections.set st1.sections.length _)[st.sections.length]? = _
    rw [hgd2, ← hslen1]
    exact List.getElem?_set_self (by omega)
  have hfin2 : evAt st3.entries idx = some "end" := by
    rw [← hgen3]
    unfold closeSectionById
    rw [hlk2]
    show evAt (annotate st2.entries idx _ _ "end") idx = _
    exact evAt_annotate_self _ _ _ _ _ (by omega)
  exact ⟨_, hfin1, hn2, hn3, hn4, rfl, hfin2⟩

def c6Payload : Payload :=
  [("tf_req_id", .str "r1"), ("@message", .str "CLI args: apply then Apply complete!")]

/-- Claim C6: the immediate-close rule.  General part: a record whose
identifier has no open section (in particular, one never seen before)
and whose message matches a start pattern and an end pattern of the
same type yields a section with `start_index = end_index` at that
record's index, the record's final event being `"end"`.  Scenario part:
a single such record produces exactly that zero-length section. -/
theorem claim_C6 :
    (∀ (st : TrackState) (idx : Nat) (v : Jval) (t : String),
      tfidOfEntry (st.entries.getD idx default) = some v → v.truthy = true →
      lookupKey st.openById v = none →
      detect_section_start_type (textBlob (st.entries.getD idx default)) = some t →
      detect_section_end (textBlob (st.entries.getD idx default)) = some t →
      idx < st.entries.length →
      ∃ sec, (trackStep st idx).sections[st.sections.length]? = some sec ∧
        sec.tf_req_id = some v ∧ sec.type = t ∧ sec.start_index = idx ∧
        sec.end_index = some idx ∧
        evAt (trackStep st idx).entries idx = some "end") ∧
    (parse_log_file [c6Payload] none).map
        (fun r => (r.2.1.map (fun s => (s.tf_req_id, s.type, s.start_index, s.end_index)),
                   r.1.map (fun e => e.section_event))) =
      some (([(some (.str "r1"), "apply", 0, some 0)] :
               List (Option Jval × String × Nat × Option Nat)),
            [some "end"]) := by
  exact ⟨immediate_close, by rfl⟩

/-- The initial tracker state on the normalized single-record
immediate-close stream. -/
def c6state : TrackState := ⟨((collectEntries [c6Payload] none).getD ([], none)).1, [], []⟩

/-- Witness for C6's general part at the concrete immediate-close
record. -/
theorem claim_C6_witness :
    evAt (trackStep c6state 0).entries 0 = some "end" ∧
    ((trackStep c6state 0).sections[0]?).map
        (fun s => (s.tf_req_id, s.type, s.start_index, s.end_index)) =
      some (some (.str "r1"), "apply", 0, some 0) := by
  obtain ⟨sec, h1, h2, h3, h4, h5, h6⟩ :=
    claim_C6.1 c6state 0 (.str "r1") "apply" (by decide) (by decide) (by decide)
      (by decide) (by decide) (by decide)
  refine ⟨h6, ?_⟩
  have hz : c6state.sections.length = 0 := rfl
  rw [hz] at h1
  rw [h1]
  show some (sec.tf_req_id, sec.type, sec.start_index, sec.end_index) = _
  rw [h2, h3, h4, h5]

/-- Claim C1: the section closing rule.  General part: when one section
is open, keyed `k`, and the record at index `idx` carries a truthy
identifier `v ≠ k`, that section closes with `end_index = idx - 1`
(`0` when `idx = 0`, by saturating subtraction) and `end_ts` from the
record at that index.  Scenario part: on
`[{id:"a"}, {id:"a"}, {id:"b"}, {}]` the section for `"a"` closes with
`end_index = 1`, not 2. -/
theorem claim_C1 :
    (∀ (st : TrackState) (idx si : Nat) (k v : Jval),
      st.openById = [(k, si)] → si < st.sections.length →
      tfidOfEntry (st.entries.getD idx default) = some v → v.truthy = true → v ≠ k →
      idx < st.entries.length →
      (trackStep st idx).sections[si]? =
        some { st.sections.getD si default with
               end_index := some (idx - 1),
               end_ts := some ((st.entries.getD (idx - 1) default).timestamp) }) ∧
    (parse_log_file [pA, pA, pB, emptyPayload] none).map
        (fun r => r.2.1.map (fun s => (s.tf_req_id, s.start_index, s.end_index))) =
      some [(some (.str "a"), 0, some 1), (some (.str "b"), 2, some 2)] := by
  refine ⟨?_, by rfl⟩
  intro st idx si k v h1 h2 h3 h4 h5 h6
  exact close_on_switch st idx si k v h1 h2 h3 h4 h5 h6

/-- The tracker state reached after two loop iterations on the
normalized `[{id:"a"}, {id:"a"}, {id:"b"}, {}]` stream: the section for
`"a"` is open. -/
def c1state : TrackState :=
  afterSteps (((collectEntries [pA, pA, pB, emptyPayload] none).getD ([], none)).1) 2

/-- Witness for C1's general part, at the concrete state reached after
two records of the scenario stream, with record index 2 carrying
identifier `"b"`. -/
theorem claim_C1_witness :
    c1state.openById = [(.str "a", 0)] ∧
    (trackStep c1state 2).sections[0]? =
      some { c1state.sections.getD 0 default with
             end_index := some 1,
             end_ts := some ((c1state.entries.getD 1 default).timestamp) } :=
  ⟨by decide,
   claim_C1.1 c1state 2 0 (.str "a") (.str "b") (by decide) (by decide) (by decide)
     (by decide) (by decide) (by decide)⟩

/-! ## Event-write discipline (claim C8)

The possible values of a record's `section_event`, and the transitions
one loop iteration (at index `idx`) may apply to it: unchanged, any
value overwritten by `"end"`, or a fresh `"start"`/`"inside"` at the
current index only. -/

def evOkSet (o : Option String) : Prop :=
  o = none ∨ o = some "start" ∨ o = some "inside" ∨ o = some "end"

/-- The transitions the claim allows for one record's event between two
successive tracker states: unchanged, first write, `start` overwritten
by `end`, or `inside` overwritten by `end` (the last being the
amendment). -/
def evAllowed (a b : Option String) : Prop :=
  b = a ∨ a = none ∨ (a = some "start" ∧ b = some "end") ∨
    (a = some "inside" ∧ b = some "end")

/-- The write effect of one loop iteration at index `idx` on the entry
list: any position may be overwritten by `"end"`, position `idx` may
also receive `"start"`/`"inside"`, and positions beyond `idx` are
untouched. -/
def EvStep (a b : List Entry) (idx : Nat) : Prop :=
  (∀ j, evAt b j = evAt a j ∨ evAt b j = some "end" ∨
        (j = idx ∧ (evAt b j = some "start" ∨ evAt b j = some "inside"))) ∧
  (∀ j, idx < j → b.get? j = a.get? j)

theorem EvStep_refl (a : List Entry) (idx : Nat) : EvStep a a idx :=
  ⟨fun _ => Or.inl rfl, fun _ _ => rfl⟩

theorem EvStep_trans {a b c : List Entry} {idx : Nat}
    (h1 : EvStep a b idx) (h2 : EvStep b c idx) : EvStep a c idx := by
  refine ⟨fun j => ?_, fun j hj => (h2.2 j hj).trans (h1.2 j hj)⟩
  rcases h2.1 j with h | h | h
  · rw [h]
    exact h1.1 j
  · exact Or.inr (Or.inl h)
  · exact Or.inr (Or.inr h)

theorem evAt_annotate_ne (es : List Entry) (i sid : Nat) (t ev : String) (j : Nat)
    (h : j ≠ i) : evAt (annotate es i sid t ev) j = evAt es j := by
  unfold annotate evAt
  split
  · rw [List.getD, List.getD, List.get?_eq_getElem?, List.get?_eq_getElem?,
        List.getElem?_set_ne (fun hh => h hh.symm)]
  · rfl

theorem get?_annotate_ne (es : List Entry) (i sid : Nat) (t ev : String) (j : Nat)
    (h : j ≠ i) : (annotate es i sid t ev).get? j = es.get? j := by
  unfold annotate
  split
  · rw [List.get?_eq_getElem?, List.get?_eq_getElem?,
        List.getElem?_set_ne (fun hh => h hh.symm)]
  · rfl

theorem evAt_annotate_or (es : List Entry) (i sid : Nat) (t ev : String) (j : Nat) :
    evAt (annotate es i sid t ev) j = evAt es j ∨ evAt (annotate es i sid t ev) j = some ev := by
  by_cases h : j = i
  · subst h
    by_cases hl : j < es.length
    · exact Or.inr (evAt_annotate_self es j sid t ev hl)
    · left
      unfold annotate
      cases hg : es.get? j with
      | none => rfl
      | some e =>
        exfalso
        rw [List.get?_eq_getElem?, List.getElem?_eq_none (Nat.le_of_not_lt hl)] at hg
        cases hg
  · exact Or.inl (evAt_annotate_ne es i sid t ev j h)

theorem EvStep_annotate_end (es : List Entry) (i sid : Nat) (t : String) (idx : Nat)
    (hc : i ≤ idx) : EvStep es (annotate es i sid t "end") idx := by
  refine ⟨fun j => ?_, fun j hj => get?_annotate_ne es i sid t "end" j (by omega)⟩
  rcases evAt_annotate_or es i sid t "end" j with h | h
  · exact Or.inl h
  · exact Or.inr (Or.inl h)

theorem EvStep_annotate_at (es : List Entry) (sid : Nat) (t ev : String) (idx : Nat)
    (hev : ev = "start" ∨ ev = "inside" ∨ ev = "end") :
    EvStep es (annotate es idx sid t ev) idx := by
  refine ⟨fun j => ?_, fun j hj => get?_annotate_ne es idx sid t ev j (by omega)⟩
  rcases evAt_annotate_or es idx sid t ev j with h | h
  · exact Or.inl h
  · by_cases hj : j = idx
    · rcases hev with rfl | rfl | rfl
      · exact Or.inr (Or.inr ⟨hj, Or.inl h⟩)
      · exact Or.inr (Or.inr ⟨hj, Or.inr h⟩)
      · exact Or.inr (Or.inl h)
    · rw [evAt_annotate_ne es idx sid t ev j hj] at h ⊢
      exact Or.inl rfl

theorem EvStep_closeSectionById (s : TrackState) (k : Jval) (c idx : Nat) (hc : c ≤ idx) :
    EvStep s.entries (closeSectionById s k c).entries idx := by
  unfold closeSectionById
  split
  · exact EvStep_refl ..
  · exact EvStep_annotate_end _ _ _ _ _ hc

theorem EvStep_closeMany (ks : List Jval) :
    ∀ (s : TrackState) (c idx : Nat), c ≤ idx →
    EvStep s.entries (closeMany s ks c).entries idx := by
  induction ks with
  | nil => intro s c idx _; exact EvStep_refl ..
  | cons k ks ih =>
    intro s c idx hc
    exact EvStep_trans (EvStep_closeSectionById s k c idx hc)
      (ih (closeSectionById s k c) c idx hc)

theorem EvStep_tfidOpenOrInside (s : TrackState) (idx : Nat) (v : Jval) (blob : String) :
    EvStep s.entries (tfidOpenOrInside s idx v blob).entries idx := by
  unfold tfidOpenOrInside
  split
  · exact EvStep_annotate_at _ _ _ _ _ (Or.inl rfl)
  · exact EvStep_annotate_at _ _ _ _ _ (Or.inr (Or.inl rfl))

theorem EvStep_tfidEndCheck (s : TrackState) (idx : Nat) (v : Jval) (blob : String) :
    EvStep s.entries (tfidEndCheck s idx v blob).entries idx := by
  unfold tfidEndCheck
  split
  · exact EvStep_refl ..
  · split
    · exact EvStep_refl ..
    · split
      · exact EvStep_closeSectionById _ _ _ _ (Nat.le_refl idx)
      · exact EvStep_refl ..

theorem EvStep_noTfidStartOrAttach (s : TrackState) (idx : Nat) (blob : String) :
    EvStep s.entries (noTfidStartOrAttach s idx blob).entries idx := by
  unfold noTfidStartOrAttach
  split
  · exact EvStep_annotate_at _ _ _ _ _ (Or.inl rfl)
  · split
    · exact EvStep_refl ..
    · split
      · exact EvStep_refl ..
      · exact EvStep_annotate_at _ _ _ _ _ (Or.inr (Or.inl rfl))

theorem EvStep_noTfidEndCheck (s : TrackState) (idx : Nat) (blob : String) :
    EvStep s.entries (noTfidEndCheck s idx blob).entries idx := by
  unfold noTfidEndCheck
  split
  · exact EvStep_refl ..
  · split
    · exact EvStep_refl ..
    · exact EvStep_annotate_at _ _ _ _ _ (Or.inr (Or.inr rfl))

theorem EvStep_trackStep (s : TrackState) (idx : Nat) :
    EvStep s.entries (trackStep s idx).entries idx := by
  unfold trackStep tfidStep noTfidStep
  have hc : idx - 1 ≤ idx := Nat.sub_le ..
  split
  · split
    · exact EvStep_trans (EvStep_closeMany _ _ _ _ hc)
        (EvStep_trans (EvStep_tfidOpenOrInside ..) (EvStep_tfidEndCheck ..))
    · exact EvStep_trans (EvStep_closeMany _ _ _ _ hc)
        (EvStep_trans (EvStep_noTfidStartOrAttach ..) (EvStep_noTfidEndCheck ..))
  · exact EvStep_trans (EvStep_closeMany _ _ _ _ hc)
      (EvStep_trans (EvStep_noTfidStartOrAttach ..) (EvStep_noTfidEndCheck ..))

theorem evAt_annotateEof_self (es : List Entry) (i sid : Nat) (t : String)
    (h : i < es.length) :
    evAt (annotateEof es i sid t) i = some (pyOrEnd (evAt es i)) := by
  have hg' : es[i]? = some (es.getD i default) := by
    rw [List.getElem?_eq_getElem h]
    simp [List.getD, List.getElem?_eq_getElem h]
  unfold annotateEof
  rw [show es.get? i = some (es.getD i default) from by
    rw [List.get?_eq_getElem?]; exact hg']
  unfold evAt
  simp [List.getD, List.getElem?_set_self h]

theorem evAt_annotateEof_or (es : List Entry) (i sid : Nat) (t : String) (j : Nat) :
    evAt (annotateEof es i sid t) j = evAt es j ∨
    evAt (annotateEof es i sid t) j = some "end" := by
  by_cases hj : j = i
  · subst hj
    by_cases hl : j < es.length
    · rw [evAt_annotateEof_self es j sid t hl]
      cases ho : evAt es j with
      | none => right; rfl
      | some s =>
        by_cases hs : s = ""
        · right
          rw [hs]
          rfl
        · left
          show some (if s ≠ "" then s else "end") = some s
          rw [if_pos hs]
    · left
      unfold annotateEof
      cases hg : es.get? j with
      | none => rfl
      | some e =>
        exfalso
        rw [List.get?_eq_getElem?, List.getElem?_eq_none (Nat.le_of_not_lt hl)] at hg
        cases hg
  · left
    unfold annotateEof evAt
    split
    · rw [List.getD, List.getD, List.get?_eq_getElem?, List.get?_eq_getElem?,
          List.getElem?_set_ne (fun hh => hj hh.symm)]
    · rfl

theorem get?_annotateEof_ne (es : List Entry) (i sid : Nat) (t : String) (j : Nat)
    (h : j ≠ i) : (annotateEof es i sid t).get? j = es.get? j := by
  unfold annotateEof
  split
  · rw [List.get?_eq_getElem?, List.get?_eq_getElem?,
        List.getElem?_set_ne (fun hh => h hh.symm)]
  · rfl

theorem EvStep_eofStep (lastIdx : Nat) (s : TrackState) (kv : Jval × Nat) (idx : Nat)
    (hc : lastIdx ≤ idx) : EvStep s.entries (eofStep lastIdx s kv).entries idx := by
  unfold eofStep
  split
  · refine ⟨fun j => ?_, fun j hj => get?_annotateEof_ne _ _ _ _ j (by omega)⟩
    rcases evAt_annotateEof_or s.entries lastIdx (s.sections.getD kv.2 default).id
        (s.sections.getD kv.2 default).type j with h | h
    · exact Or.inl h
    · exact Or.inr (Or.inl h)
  · exact EvStep_refl ..

theorem EvStep_eofFold (ks : List (Jval × Nat)) :
    ∀ (lastIdx : Nat) (s : TrackState) (idx : Nat), lastIdx ≤ idx →
    EvStep s.entries (ks.foldl (eofStep lastIdx) s).entries idx := by
  induction ks with
  | nil => intro lastIdx s idx _; exact EvStep_refl ..
  | cons kv ks ih =>
    intro lastIdx s idx hc
    exact EvStep_trans (EvStep_eofStep lastIdx s kv idx hc) (ih lastIdx _ idx hc)

theorem EvStep_eofClose (s : TrackState) (idx : Nat) (hc : s.entries.length - 1 ≤ idx) :
    EvStep s.entries (eofClose s).entries idx := by
  unfold eofClose
  split
  · exact EvStep_refl ..
  · exact EvStep_eofFold _ _ _ _ hc

theorem collect_evAt_none (objs : List Payload) (last0 : Option String) (es : List Entry)
    (lastF : Option String) (hc : collectEntries objs last0 = some (es, lastF)) :
    ∀ j, evAt es j = none := by
  intro j
  obtain ⟨hlen, -, hidx⟩ := collect_spec objs last0 es lastF hc
  by_cases hj : j < es.length
  · exact (parse_entry_spec (hidx j (by omega))).2.2.2.2
  · unfold evAt
    simp [List.getD, List.getElem?_eq_none (Nat.le_of_not_lt hj)]
    rfl

theorem get?_eq_evAt_eq {a b : List Entry} {j : Nat} (h : b.get? j = a.get? j) :
    evAt b j = evAt a j := by
  unfold evAt
  rw [List.getD, List.getD, h]

/-- Along the loop, every event is one of the four values, and nothing
at an index not yet processed has been written. -/
theorem afterSteps_ev_inv (es : List Entry) (h0 : ∀ j, evAt es j = none) :
    ∀ n, (∀ j, evOkSet (evAt (afterSteps es n).entries j)) ∧
         (∀ j, n ≤ j → evAt (afterSteps es n).entries j = none) := by
  intro n
  induction n with
  | zero => exact ⟨fun j => Or.inl (h0 j), fun j _ => h0 j⟩
  | succ n ih =>
    have hstep := EvStep_trackStep (afterSteps es n) n
    rw [← afterSteps_succ] at hstep
    constructor
    · intro j
      rcases hstep.1 j with h | h | h
      · rw [h]
        exact ih.1 j
      · rw [h]
        exact Or.inr (Or.inr (Or.inr rfl))
      · rcases h.2 with h2 | h2
        · rw [h2]
          exact Or.inr (Or.inl rfl)
        · rw [h2]
          exact Or.inr (Or.inr (Or.inl rfl))
    · intro j hj
      rw [get?_eq_evAt_eq (hstep.2 j (by omega))]
      exact ih.2 j (by omega)

/-- An `EvStep` whose source satisfies the global invariants only makes
allowed transitions. -/
theorem EvStep_allowed {a b : List Entry} {idx : Nat} (h : EvStep a b idx)
    (hok : ∀ j, evOkSet (evAt a j)) (hnone : evAt a idx = none) :
    ∀ j, evAllowed (evAt a j) (evAt b j) := by
  intro j
  rcases h.1 j with hh | hh | hh
  · exact Or.inl hh
  · rcases hok j with h0 | h0 | h0 | h0
    · exact Or.inr (Or.inl h0)
    · exact Or.inr (Or.inr (Or.inl ⟨h0, hh⟩))
    · exact Or.inr (Or.inr (Or.inr ⟨h0, hh⟩))
    · left
      rw [hh, h0]
  · obtain ⟨rfl, -⟩ := hh
    exact Or.inr (Or.inl hnone)

/-- Counterexample for C8 as stated: in the stream
`[{id:"a"}, {id:"a"}, {id:"b"}]`, record 1's event is first written
`"inside"` (after two iterations) and later overwritten to `"end"`
(when record 2's different identifier retroactively closes the
section), a transition the claim does not allow. -/
theorem claim_C8_cex :
    (collectEntries [pA, pA, pB] none).map (fun r =>
      (evAt (afterSteps r.1 2).entries 1, evAt (afterSteps r.1 3).entries 1)) =
    some (some "inside", some "end") := by
  rfl

/-- Claim C8 as amended: between consecutive tracker states (each loop
iteration, and the end-of-stream close), a record's event either stays
unchanged, receives its first write, or is overwritten by `"end"` from
`"start"` (zero-length immediate close) or from `"inside"` (retroactive
close at the section's last record); in particular nothing else is ever
overwritten. -/
theorem claim_C8 (objs : List Payload) (last0 : Option String) (es : List Entry)
    (lastF : Option String) (hc : collectEntries objs last0 = some (es, lastF)) :
    (∀ n j, evAllowed (evAt (afterSteps es n).entries j)
        (evAt (afterSteps es (n + 1)).entries j)) ∧
    (∀ j, evAllowed (evAt (afterSteps es es.length).entries j)
        (evAt (eofClose (afterSteps es es.length)).entries j)) := by
  have h0 := collect_evAt_none objs last0 es lastF hc
  constructor
  · intro n j
    have hstep := EvStep_trackStep (afterSteps es n) n
    rw [← afterSteps_succ] at hstep
    exact EvStep_allowed hstep (afterSteps_ev_inv es h0 n).1
      ((afterSteps_ev_inv es h0 n).2 n (Nat.le_refl n)) j
  · intro j
    have hstep := EvStep_eofClose (afterSteps es es.length)
      ((afterSteps es es.length).entries.length) (Nat.sub_le ..)
    refine EvStep_allowed hstep (afterSteps_ev_inv es h0 es.length).1 ?_ j
    unfold evAt
    simp [List.getD,
      List.getElem?_eq_none (Nat.le_refl (afterSteps es es.length).entries.length)]
    rfl

/-- The normalized entries of the C8 scenario stream. -/
def c8entries : List Entry := ((collectEntries [pA, pA, pB] none).getD ([], none)).1

/-- Witness for C8 at the scenario stream: the step that processes
record 2 makes an allowed transition on record 1's event. -/
theorem claim_C8_witness :
    evAllowed (evAt (afterSteps c8entries 2).entries 1)
      (evAt (afterSteps c8entries 3).entries 1) := by
  rcases hc : collectEntries [pA, pA, pB] none with - | ⟨es, lastF⟩
  · exact absurd hc (by decide)
  · have h := (claim_C8 [pA, pA, pB] none es lastF hc).1 2 1
    have he : c8entries = es := by
      unfold c8entries
      rw [hc]
      rfl
    rw [he]
    exact h

/-! ## Open-section discipline and range disjointness (claim C10) -/

/-- A closed copy of a section: `end_index`/`end_ts` assigned. -/
def closedAt (sec : Section) (c : Nat) (ts : String) : Section :=
  { sec with end_index := some c, end_ts := some ts }

/-- A section with its entry counter bumped. -/
def bumpEntries (sec : Section) : Section := { sec with entries := sec.entries + 1 }

theorem getD_set_self {α} [Inhabited α] (l : List α) (i : Nat) (x : α) (h : i < l.length) :
    (l.set i x).getD i default = x := by
  simp [List.getD, List.getElem?_set_self h]

theorem getD_set_ne {α} [Inhabited α] (l : List α) (i p : Nat) (x : α) (h : p ≠ i) :
    (l.set i x).getD p default = l.getD p default := by
  simp [List.getD, List.getElem?_set_ne (Ne.symm h)]

theorem getD_append_left {α} [Inhabited α] (l : List α) (x : α) (p : Nat) (h : p < l.length) :
    (l ++ [x]).getD p default = l.getD p default := by
  simp [List.getD, List.getElem?_append_left h]

theorem getD_append_len {α} [Inhabited α] (l : List α) (x : α) :
    (l ++ [x]).getD l.length default = x := by
  simp [List.getD, List.getElem?_concat_length]

/-- All sections closed, with starts before ends, ends below the bound,
and pairwise ordering: every closed end lies strictly before every
later section's start. -/
def ClosedInv (secs : List Section) (b : Nat) : Prop :=
  (∀ p, p < secs.length → ∃ e, (secs.getD p default).end_index = some e ∧
     (secs.getD p default).start_index ≤ e ∧ e < b) ∧
  (∀ p q e, p < q → q < secs.length → (secs.getD p default).end_index = some e →
     e < (secs.getD q default).start_index)

/-- The last section open (no end, start below the bound), all earlier
ones closed, with the same ordering. -/
def OpenInv (secs : List Section) (b : Nat) : Prop :=
  secs.length ≥ 1 ∧
  (secs.getD (secs.length - 1) default).end_index = none ∧
  (secs.getD (secs.length - 1) default).start_index < b ∧
  (∀ p, p + 1 < secs.length → ∃ e, (secs.getD p default).end_index = some e ∧
     (secs.getD p default).start_index ≤ e ∧ e < b) ∧
  (∀ p q e, p < q → q < secs.length → (secs.getD p default).end_index = some e →
     e < (secs.getD q default).start_index)

/-- The tracker-state invariant at bound `b` (all record indices
processed so far are `< b`): the open table is empty with every section
closed, or holds exactly one key, bound to the last section, which is
open. -/
def StInv (st : TrackState) (b : Nat) : Prop :=
  (st.openById = [] ∧ ClosedInv st.sections b) ∨
  (∃ k, st.openById = [(k, st.sections.length - 1)] ∧ OpenInv st.sections b)

theorem ClosedInv_mono {secs : List Section} {b b' : Nat} (h : ClosedInv secs b)
    (hb : b ≤ b') : ClosedInv secs b' := by
  obtain ⟨h1, h2⟩ := h
  refine ⟨fun p hp => ?_, h2⟩
  obtain ⟨e, he1, he2, he3⟩ := h1 p hp
  exact ⟨e, he1, he2, by omega⟩

theorem OpenInv_mono {secs : List Section} {b b' : Nat} (h : OpenInv secs b)
    (hb : b ≤ b') : OpenInv secs b' := by
  obtain ⟨h1, h2, h3, h4, h5⟩ := h
  refine ⟨h1, h2, by omega, fun p hp => ?_, h5⟩
  obtain ⟨e, he1, he2, he3⟩ := h4 p hp
  exact ⟨e, he1, he2, by omega⟩

theorem StInv_mono {st : TrackState} {b b' : Nat} (h : StInv st b) (hb : b ≤ b') :
    StInv st b' := by
  rcases h with ⟨h1, h2⟩ | ⟨k, h1, h2⟩
  · exact Or.inl ⟨h1, ClosedInv_mono h2 hb⟩
  · exact Or.inr ⟨k, h1, OpenInv_mono h2 hb⟩

/-- Closing the open last section at `c` (its start is `≤ c`, `c`
below the new bound) yields the all-closed invariant. -/
theorem closeLast_ClosedInv {secs : List Section} {b b' c : Nat} (h : OpenInv secs b)
    (hc1 : (secs.getD (secs.length - 1) default).start_index ≤ c)
    (hc2 : c < b') (hb : b ≤ b') (ts : String) :
    ClosedInv (secs.set (secs.length - 1)
      (closedAt (secs.getD (secs.length - 1) default) c ts)) b' := by
  obtain ⟨hlen, hend, hstart, hclosed, hpair⟩ := h
  have hlt : secs.length - 1 < secs.length := by omega
  constructor
  · intro p hp
    rw [List.length_set] at hp
    by_cases hpe : p = secs.length - 1
    · subst hpe
      rw [getD_set_self _ _ _ hlt]
      exact ⟨c, rfl, hc1, hc2⟩
    · rw [getD_set_ne _ _ _ _ hpe]
      obtain ⟨e, he1, he2, he3⟩ := hclosed p (by omega)
      exact ⟨e, he1, he2, by omega⟩
  · intro p q e hpq hq hpe
    rw [List.length_set] at hq
    by_cases hqe : q = secs.length - 1
    · subst hqe
      have hpne : p ≠ secs.length - 1 := by omega
      rw [getD_set_ne _ _ _ _ hpne] at hpe
      rw [getD_set_self _ _ _ hlt]
      exact hpair p _ e hpq hlt hpe
    · have hpne : p ≠ secs.length - 1 := by omega
      rw [getD_set_ne _ _ _ _ hqe]
      rw [getD_set_ne _ _ _ _ hpne] at hpe
      exact hpair p q e hpq (by omega) hpe

/-- Appending a fresh open section starting at `idx ≥ b` over an
all-closed table yields the open invariant. -/
theorem appendOpen_OpenInv {secs : List Section} {b b' idx : Nat} {sec : Section}
    (h : ClosedInv secs b) (hend : sec.end_index = none) (hstart : sec.start_index = idx)
    (hb : b ≤ idx) (hb' : idx < b') : OpenInv (secs ++ [sec]) b' := by
  obtain ⟨h1, h2⟩ := h
  have hlen : (secs ++ [sec]).length = secs.length + 1 := by simp
  have hlast : (secs ++ [sec]).length - 1 = secs.length := by omega
  refine ⟨by omega, ?_, ?_, ?_, ?_⟩
  · rw [hlast, getD_append_len]
    exact hend
  · rw [hlast, getD_append_len, hstart]
    exact hb'
  · intro p hp
    rw [hlen] at hp
    rw [getD_append_left _ _ _ (by omega)]
    obtain ⟨e, he1, he2, he3⟩ := h1 p (by omega)
    exact ⟨e, he1, he2, by omega⟩
  · intro p q e hpq hq hpe
    rw [hlen] at hq
    have hple : p < secs.length := by omega
    rw [getD_append_left _ _ _ hple] at hpe
    by_cases hqe : q = secs.length
    · subst hqe
      rw [getD_append_len, hstart]
      obtain ⟨e', he1, -, he3⟩ := h1 p hple
      rw [hpe] at he1
      cases he1
      omega
    · rw [getD_append_left _ _ _ (by omega)]
      exact h2 p q e hpq (by omega) hpe

/-- Bumping the open section's entry counter preserves the invariant. -/
theorem bumpLast_OpenInv {secs : List Section} {b : Nat} (h : OpenInv secs b) :
    OpenInv (secs.set (secs.length - 1)
      (bumpEntries (secs.getD (secs.length - 1) default))) b := by
  obtain ⟨hlen, hend, hstart, hclosed, hpair⟩ := h
  have hlt : secs.length - 1 < secs.length := by omega
  have hlen' : (secs.set (secs.length - 1) (bumpEntries (secs.getD (secs.length - 1) default))).length = secs.length := by
    simp
  refine ⟨by omega, ?_, ?_, ?_, ?_⟩
  · rw [hlen', getD_set_self _ _ _ hlt]
    exact hend
  · rw [hlen', getD_set_self _ _ _ hlt]
    exact hstart
  · intro p hp
    rw [hlen'] at hp
    rw [getD_set_ne _ _ _ _ (by omega)]
    exact hclosed p hp
  · intro p q e hpq hq hpe
    rw [hlen'] at hq
    have hpne : p ≠ secs.length - 1 := by omega
    rw [getD_set_ne _ _ _ _ hpne] at hpe
    by_cases hqe : q = secs.length - 1
    · subst hqe
      rw [getD_set_self _ _ _ hlt]
      exact hpair p _ e hpq hlt hpe
    · rw [getD_set_ne _ _ _ _ hqe]
      exact hpair p q e hpq (by omega) hpe

/-- The shape of `_close_section_by_id` when exactly one binding is
open. -/
theorem closeSingle (st : TrackState) (k : Jval) (si c : Nat)
    (hopen : st.openById = [(k, si)]) :
    ∃ ts, closeSectionById st k c =
      ⟨annotate st.entries c (st.sections.getD si default).id
          (st.sections.getD si default).type "end",
        st.sections.set si (closedAt (st.sections.getD si default) c ts), []⟩ := by
  unfold closeSectionById
  rw [hopen, lookupKey_single_self, removeKey_single_self]
  exact ⟨_, rfl⟩

theorem matchCSPre_append (p rest : List Char) : matchCSPre p (p ++ rest) = true := by
  induction p with
  | nil => rfl
  | cons c cs ih => simp [matchCSPre, ih]

/-- Synthetic anonymous keys satisfy the `_anon_` prefix test. -/
theorem isAnonKey_anonKey (n : Nat) : isAnonKey (anonKey n) = true := by
  unfold isAnonKey anonKey
  exact matchCSPre_append _ _

theorem lookupKey_removeKey_self (m : List (Jval × Nat)) (k : Jval) :
    lookupKey (removeKey m k) k = none := by
  unfold lookupKey removeKey
  cases hf : (m.filter (fun kv => kv.1 != k)).find? (fun kv => kv.1 == k) with
  | none => rfl
  | some kv =>
    have hkey := List.find?_some hf
    have hmem := List.mem_of_find?_eq_some hf
    have hne : (kv.1 != k) = true := (List.mem_filter.mp hmem).2
    rw [bne_iff_ne] at hne
    exact absurd (eq_of_beq hkey) hne

theorem lookupKey_append_ne (m : List (Jval × Nat)) (v k : Jval) (pos : Nat)
    (hkv : k ≠ v) (h : lookupKey m k = none) :
    lookupKey (m ++ [(v, pos)]) k = none := by
  have hvk : (v == k) = false := by
    cases hb : v == k with
    | true => exact absurd (eq_of_beq hb) (Ne.symm hkv)
    | false => rfl
  unfold lookupKey at h ⊢
  induction m with
  | nil => simp [List.find?, hvk]
  | cons kv m ih =>
    rw [List.cons_append] at *
    cases hk : kv.1 == k with
    | true =>
      simp only [List.find?, hk] at h
      cases h
    | false =>
      simp only [List.find?, hk] at h ⊢
      exact ih h

theorem lookupKey_mem_keys (m : List (Jval × Nat)) (k : Jval) (si : Nat)
    (h : lookupKey m k = some si) : k ∈ m.map Prod.fst := by
  unfold lookupKey at h
  cases hf : m.find? (fun kv => kv.1 == k) with
  | none => rw [hf] at h; cases h
  | some kv =>
    have hkey := List.find?_some hf
    have hmem := List.mem_of_find?_eq_some hf
    exact List.mem_map.mpr ⟨kv, hmem, eq_of_beq hkey⟩

/-- Closing a key removes it from the open table. -/
theorem closeSectionById_lookup_self (s : TrackState) (k : Jval) (c : Nat) :
    lookupKey (closeSectionById s k c).openById k = none := by
  unfold closeSectionById
  cases h : lookupKey s.openById k with
  | none => exact h
  | some si => exact lookupKey_removeKey_self _ _

/-- After the close loop, a key that was in the snapshot list (or was
never open) is not open. -/
theorem closeMany_removes (ks : List Jval) :
    ∀ (s : TrackState) (c : Nat) (k : Jval),
    (lookupKey s.openById k = none ∨ k ∈ ks) →
    lookupKey (closeMany s ks c).openById k = none := by
  induction ks with
  | nil =>
    intro s c k h
    rcases h with h | h
    · exact h
    · exact absurd h (List.not_mem_nil k)
  | cons k0 ks ih =>
    intro s c k h
    show lookupKey (closeMany (closeSectionById s k0 c) ks c).openById k = none
    by_cases hk : k = k0
    · subst hk
      exact ih _ c k (Or.inl (closeSectionById_lookup_self s k c))
    · rcases h with h | h
      · exact ih _ c k (Or.inl (closeSectionById_lookup_none s k0 k c h))
      · rcases List.mem_cons.mp h with he | hm
        · exact absurd he hk
        · exact ih _ c k (Or.inr hm)

theorem tfidOpenOrInside_lookup_none (st : TrackState) (idx : Nat) (v : Jval) (blob : String)
    (k : Jval) (hkv : k ≠ v) (h : lookupKey st.openById k = none) :
    lookupKey (tfidOpenOrInside st idx v blob).openById k = none := by
  unfold tfidOpenOrInside
  split
  · exact lookupKey_append_ne st.openById v k st.sections.length hkv h
  · exact h

theorem tfidEndCheck_lookup_none (st : TrackState) (idx : Nat) (v : Jval) (blob : String)
    (k : Jval) (h : lookupKey st.openById k = none) :
    lookupKey (tfidEndCheck st idx v blob).openById k = none := by
  unfold tfidEndCheck
  split
  · exact h
  · split
    · exact h
    · split
      · exact closeSectionById_lookup_none st v k idx h
      · exact h

theorem noTfidStartOrAttach_lookup_none (st : TrackState) (idx : Nat) (blob : String)
    (k : Jval) (hk : isAnonKey k = false) (h : lookupKey st.openById k = none) :
    lookupKey (noTfidStartOrAttach st idx blob).openById k = none := by
  have hkne : k ≠ anonKey (st.sections.length + 1) := by
    intro he
    rw [he, isAnonKey_anonKey] at hk
    cases hk
  unfold noTfidStartOrAttach
  split
  · exact lookupKey_append_ne st.openById _ k st.sections.length hkne h
  · split
    · exact h
    · split
      · exact h
      · exact h

theorem noTfidEndCheck_lookup_none (st : TrackState) (idx : Nat) (blob : String)
    (k : Jval) (h : lookupKey st.openById k = none) :
    lookupKey (noTfidEndCheck st idx blob).openById k = none := by
  unfold noTfidEndCheck
  split
  · exact h
  · split
    · exact h
    · exact lookupKey_filter_none _ _ _ h

/-- An identifier-keyed record's step leaves no differently-keyed
section open (the `other_ids` close loop plus the later stages). -/
theorem tfidStep_closes_others (st : TrackState) (idx : Nat) (v : Jval) (blob : String)
    (k : Jval) (hkv : k ≠ v) :
    lookupKey (tfidStep st idx v blob).openById k = none := by
  have h1 : lookupKey (closeMany st ((st.openById.map Prod.fst).filter
      (fun x => x != v)) (idx - 1)).openById k = none := by
    cases hl : lookupKey st.openById k with
    | none => exact closeMany_lookup_none _ _ _ _ hl
    | some si =>
      refine closeMany_removes _ _ _ _ (Or.inr ?_)
      exact List.mem_filter.mpr ⟨lookupKey_mem_keys _ _ _ hl, bne_iff_ne.mpr hkv⟩
  unfold tfidStep
  exact tfidEndCheck_lookup_none _ _ _ _ _ (tfidOpenOrInside_lookup_none _ _ _ _ _ hkv h1)

/-- An identifier-less record's step leaves no identifier-keyed
(non-anonymous) section open (the close-all loop plus the later
stages). -/
theorem noTfidStep_closes_ids (st : TrackState) (idx : Nat) (blob : String)
    (k : Jval) (hk : isAnonKey k = false) :
    lookupKey (noTfidStep st idx blob).openById k = none := by
  have h1 : lookupKey (closeMany st (st.openById.map Prod.fst) (idx - 1)).openById k = none := by
    cases hl : lookupKey st.openById k with
    | none => exact closeMany_lookup_none _ _ _ _ hl
    | some si => exact closeMany_removes _ _ _ _ (Or.inr (lookupKey_mem_keys _ _ _ hl))
  unfold noTfidStep
  exact noTfidEndCheck_lookup_none _ _ _ _ (noTfidStartOrAttach_lookup_none _ _ _ _ hk h1)

theorem lookupKey_single_ne (k v : Jval) (si : Nat) (h : k ≠ v) :
    lookupKey [(k, si)] v = none := by
  have hk : (k == v) = false := by
    cases hb : k == v with
    | true => exact absurd (eq_of_beq hb) h
    | false => rfl
  simp [lookupKey, List.find?, hk]

/-- Shape of the open-or-inside stage when the identifier is new. -/
theorem tfidOpenOrInside_shape_new (st : TrackState) (idx : Nat) (v : Jval) (blob : String)
    (hlk : lookupKey st.openById v = none) :
    ∃ sec : Section, tfidOpenOrInside st idx v blob =
      ⟨annotate st.entries idx (st.sections.length + 1) (inferType blob) "start",
        st.sections ++ [sec], st.openById ++ [(v, st.sections.length)]⟩ ∧
      sec.end_index = none ∧ sec.start_index = idx := by
  unfold tfidOpenOrInside
  rw [hlk]
  exact ⟨_, rfl, rfl, rfl⟩

/-- Shape of the open-or-inside stage when the identifier's section is
already open at slot `si`. -/
theorem tfidOpenOrInside_shape_inside (st : TrackState) (idx : Nat) (v : Jval) (blob : String)
    (si : Nat) (hlk : lookupKey st.openById v = some si) :
    tfidOpenOrInside st idx v blob =
      ⟨annotate st.entries idx (st.sections.getD si default).id
          (st.sections.getD si default).type "inside",
        st.sections.set si (bumpEntries (st.sections.getD si default)), st.openById⟩ := by
  unfold tfidOpenOrInside
  rw [hlk]
  rfl

/-- The open-or-inside stage preserves the invariant when the open
table is empty or already keyed by this identifier. -/
theorem StInv_tfidOpenOrInside (st : TrackState) (idx : Nat) (v : Jval) (blob : String)
    (h : StInv st idx)
    (hcl : st.openById = [] ∨ st.openById = [(v, st.sections.length - 1)]) :
    StInv (tfidOpenOrInside st idx v blob) (idx + 1) := by
  rcases hcl with hopen | hopen
  · have hlk : lookupKey st.openById v = none := by rw [hopen]; rfl
    obtain ⟨sec, heq, hend, hstart⟩ := tfidOpenOrInside_shape_new st idx v blob hlk
    have hci : ClosedInv st.sections idx := by
      rcases h with ⟨-, hci⟩ | ⟨k, hopen2, -⟩
      · exact hci
      · rw [hopen] at hopen2; cases hopen2
    refine Or.inr ⟨v, ?_, ?_⟩
    · rw [heq, hopen]
      simp
    · rw [heq]
      exact appendOpen_OpenInv hci hend hstart (le_refl idx) (Nat.lt_succ_self idx)
  · have hlk : lookupKey st.openById v = some (st.sections.length - 1) := by
      rw [hopen]; exact lookupKey_single_self v _
    have hoi : OpenInv st.sections idx := by
      rcases h with ⟨hopen2, -⟩ | ⟨k, hopen2, hoi⟩
      · rw [hopen] at hopen2; cases hopen2
      · exact hoi
    rw [tfidOpenOrInside_shape_inside st idx v blob _ hlk]
    refine Or.inr ⟨v, ?_, ?_⟩
    · rw [hopen]
      simp
    · exact OpenInv_mono (bumpLast_OpenInv hoi) (Nat.le_succ idx)

/-- The identifier-keyed same-record end check preserves the
invariant. -/
theorem StInv_tfidEndCheck (st : TrackState) (idx : Nat) (v : Jval) (blob : String)
    (h : StInv st (idx + 1)) : StInv (tfidEndCheck st idx v blob) (idx + 1) := by
  unfold tfidEndCheck
  split
  · exact h
  next endType hdet =>
    rcases h with ⟨hopen, hci⟩ | ⟨k, hopen, hoi⟩
    · have hlk : lookupKey st.openById v = none := by rw [hopen]; rfl
      rw [hlk]
      exact Or.inl ⟨hopen, hci⟩
    · by_cases hkv : k = v
      · subst hkv
        have hlk : lookupKey st.openById k = some (st.sections.length - 1) := by
          rw [hopen]; exact lookupKey_single_self k _
        rw [hlk]
        show StInv (if (st.sections.getD (st.sections.length - 1) default).type = endType
            then closeSectionById st k idx else st) (idx + 1)
        split
        · obtain ⟨ts, hcs⟩ := closeSingle st k (st.sections.length - 1) idx hopen
          rw [hcs]
          refine Or.inl ⟨rfl, ?_⟩
          have h3 := hoi.2.2.1
          have hstart : (st.sections.getD (st.sections.length - 1) default).start_index ≤ idx := by
            omega
          exact closeLast_ClosedInv hoi hstart (Nat.lt_succ_self idx) (le_refl _) ts
        · exact Or.inr ⟨k, hopen, hoi⟩
      · have hlk : lookupKey st.openById v = none := by
          rw [hopen]; exact lookupKey_single_ne k v _ hkv
        rw [hlk]
        exact Or.inr ⟨k, hopen, hoi⟩

/-- The identifier-keyed branch of the loop preserves the invariant. -/
theorem StInv_tfidStep (st : TrackState) (n : Nat) (v : Jval) (blob : String)
    (h : StInv st n) : StInv (tfidStep st n v blob) (n + 1) := by
  unfold tfidStep
  rcases h with ⟨hopen, hci⟩ | ⟨k, hopen, hoi⟩
  · have hcm : closeMany st ((st.openById.map Prod.fst).filter (fun k => k != v)) (n - 1) = st := by
      rw [hopen]
      rfl
    rw [hcm]
    exact StInv_tfidEndCheck _ _ _ _
      (StInv_tfidOpenOrInside _ _ _ _ (Or.inl ⟨hopen, hci⟩) (Or.inl hopen))
  · by_cases hkv : k = v
    · subst hkv
      have hcm : closeMany st ((st.openById.map Prod.fst).filter (fun x => x != k)) (n - 1) = st := by
        rw [hopen]
        simp [closeMany]
      rw [hcm]
      exact StInv_tfidEndCheck _ _ _ _
        (StInv_tfidOpenOrInside _ _ _ _ (Or.inr ⟨k, hopen, hoi⟩) (Or.inr hopen))
    · have hflt : (st.openById.map Prod.fst).filter (fun x => x != v) = [k] := by
        rw [hopen]
        simp [bne_iff_ne, hkv]
      obtain ⟨ts, hcs⟩ := closeSingle st k (st.sections.length - 1) (n - 1) hopen
      have hcm : closeMany st ((st.openById.map Prod.fst).filter (fun x => x != v)) (n - 1)
          = closeSectionById st k (n - 1) := by
        rw [hflt]
        rfl
      rw [hcm, hcs]
      have h3 := hoi.2.2.1
      have hstart : (st.sections.getD (st.sections.length - 1) default).start_index ≤ n - 1 := by
        omega
      have hci2 : ClosedInv (st.sections.set (st.sections.length - 1)
          (closedAt (st.sections.getD (st.sections.length - 1) default) (n - 1) ts)) n :=
        closeLast_ClosedInv hoi hstart (by omega) (le_refl n) ts
      exact StInv_tfidEndCheck _ _ _ _
        (StInv_tfidOpenOrInside _ _ _ _ (Or.inl ⟨rfl, hci2⟩) (Or.inl rfl))

/-- The identifier-less start-or-attach stage, entered with every
section closed, preserves the invariant. -/
theorem StInv_noTfidStartOrAttach (st : TrackState) (idx : Nat) (blob : String)
    (hopen : st.openById = []) (hci : ClosedInv st.sections idx) :
    StInv (noTfidStartOrAttach st idx blob) (idx + 1) := by
  unfold noTfidStartOrAttach
  split
  next t hdet =>
    refine Or.inr ⟨anonKey (st.sections.length + 1), ?_, ?_⟩
    · rw [hopen]
      simp
    · exact appendOpen_OpenInv hci rfl rfl (le_refl idx) (Nat.lt_succ_self idx)
  next hdet =>
    rw [hopen]
    exact Or.inl ⟨hopen, ClosedInv_mono hci (Nat.le_succ idx)⟩

/-- The identifier-less end check preserves the invariant. -/
theorem StInv_noTfidEndCheck (st : TrackState) (idx : Nat) (blob : String)
    (h : StInv st (idx + 1)) : StInv (noTfidEndCheck st idx blob) (idx + 1) := by
  unfold noTfidEndCheck
  split
  · exact h
  next endType hdet =>
    rcases h with ⟨hopen, hci⟩ | ⟨k, hopen, hoi⟩
    · rw [hopen]
      exact Or.inl ⟨hopen, hci⟩
    · rw [hopen]
      cases hty : ((st.sections.getD (st.sections.length - 1) default).type == endType) with
      | false =>
        have hf : [(k, st.sections.length - 1)].filter
            (fun kv => (st.sections.getD kv.2 default).type == endType) = [] := by
          simp only [List.filter, hty]
        rw [hf]
        exact Or.inr ⟨k, hopen, hoi⟩
      | true =>
        have hf : [(k, st.sections.length - 1)].filter
            (fun kv => (st.sections.getD kv.2 default).type == endType)
            = [(k, st.sections.length - 1)] := by
          simp only [List.filter, hty]
        rw [hf]
        refine Or.inl ⟨?_, ?_⟩
        · show removeKey [(k, st.sections.length - 1)] k = []
          exact removeKey_single_self k _
        · show ClosedInv (st.sections.set (st.sections.length - 1)
            (closedAt (st.sections.getD (st.sections.length - 1) default) idx
              ((st.entries.getD idx default).timestamp))) (idx + 1)
          have h3 := hoi.2.2.1
          have hstart : (st.sections.getD (st.sections.length - 1) default).start_index ≤ idx := by
            omega
          exact closeLast_ClosedInv hoi hstart (Nat.lt_succ_self idx) (le_refl _) _

/-- The identifier-less branch of the loop preserves the invariant. -/
theorem StInv_noTfidStep (st : TrackState) (n : Nat) (blob : String)
    (h : StInv st n) : StInv (noTfidStep st n blob) (n + 1) := by
  unfold noTfidStep
  have hmid : ∃ stm : TrackState, closeMany st (st.openById.map Prod.fst) (n - 1) = stm ∧
      stm.openById = [] ∧ ClosedInv stm.sections n := by
    rcases h with ⟨hopen, hci⟩ | ⟨k, hopen, hoi⟩
    · refine ⟨st, ?_, hopen, hci⟩
      rw [hopen]
      rfl
    · obtain ⟨ts, hcs⟩ := closeSingle st k (st.sections.length - 1) (n - 1) hopen
      have hcm : closeMany st (st.openById.map Prod.fst) (n - 1)
          = closeSectionById st k (n - 1) := by
        rw [hopen]
        rfl
      refine ⟨closeSectionById st k (n - 1), hcm, ?_, ?_⟩
      · rw [hcs]
      · rw [hcs]
        have h3 := hoi.2.2.1
        have hstart : (st.sections.getD (st.sections.length - 1) default).start_index ≤ n - 1 := by
          omega
        exact closeLast_ClosedInv hoi hstart (by omega) (le_refl n) ts
  obtain ⟨stm, hcm, hopenm, hcim⟩ := hmid
  rw [hcm]
  exact StInv_noTfidEndCheck _ _ _ (StInv_noTfidStartOrAttach stm n blob hopenm hcim)

/-- One loop iteration preserves the invariant. -/
theorem StInv_trackStep (st : TrackState) (n : Nat) (h : StInv st n) :
    StInv (trackStep st n) (n + 1) := by
  unfold trackStep
  split
  · split
    · exact StInv_tfidStep _ _ _ _ h
    · exact StInv_noTfidStep _ _ _ h
  · exact StInv_noTfidStep _ _ _ h

/-- The invariant holds after any number of loop iterations. -/
theorem StInv_afterSteps (es : List Entry) (n : Nat) : StInv (afterSteps es n) n := by
  induction n with
  | zero =>
    refine Or.inl ⟨rfl, fun p hp => ?_, fun p q e hpq hq hpe => ?_⟩
    · exact absurd hp (Nat.not_lt_zero p)
    · exact absurd hq (Nat.not_lt_zero q)
  | succ n ih =>
    rw [afterSteps_succ]
    exact StInv_trackStep _ _ ih

/-- After the end-of-stream close, the section table is pairwise
disjoint: every closed end lies strictly before every later start. -/
theorem eofClose_pairwise (st : TrackState) (b : Nat) (h : StInv st b) :
    ∀ p q e, p < q → q < (eofClose st).sections.length →
    ((eofClose st).sections.getD p default).end_index = some e →
    e < ((eofClose st).sections.getD q default).start_index := by
  rcases h with ⟨hopen, hci⟩ | ⟨k, hopen, hoi⟩
  · have heq : eofClose st = st := by
      unfold eofClose
      rw [hopen]
      rfl
    rw [heq]
    exact fun p q e hpq hq hpe => hci.2 p q e hpq hq hpe
  · obtain ⟨hlen, hend, hstart, hclosed, hpair⟩ := hoi
    obtain ⟨ts, heq⟩ : ∃ ts, (eofClose st).sections = st.sections.set (st.sections.length - 1)
        (closedAt (st.sections.getD (st.sections.length - 1) default)
          (st.entries.length - 1) ts) := by
      unfold eofClose
      rw [hopen]
      show ∃ ts, (eofStep (st.entries.length - 1) st (k, st.sections.length - 1)).sections
          = st.sections.set (st.sections.length - 1)
            (closedAt (st.sections.getD (st.sections.length - 1) default)
              (st.entries.length - 1) ts)
      unfold eofStep
      split
      · exact ⟨_, rfl⟩
      next hn => exact absurd hend hn
    intro p q e hpq hq hpe
    rw [heq] at hq hpe ⊢
    rw [List.length_set] at hq
    by_cases hqe : q = st.sections.length - 1
    · subst hqe
      have hpne : p ≠ st.sections.length - 1 := by omega
      rw [getD_set_ne _ _ _ _ hpne] at hpe
      rw [getD_set_self _ _ _ (by omega)]
      exact hpair p _ e hpq (by omega) hpe
    · have hpne : p ≠ st.sections.length - 1 := by omega
      rw [getD_set_ne _ _ _ _ hqe]
      rw [getD_set_ne _ _ _ _ hpne] at hpe
      exact hpair p q e hpq (by omega) hpe

/-- Witness for C3 at the single-record stream
`[{"@timestamp": "2020-01-01T00:00:00"}]`. -/
theorem claim_C3_witness :
    (parse_log_file [tsPayload] none).map (fun r => r.1.length) = some 1 := by
  rcases hp : parse_log_file [tsPayload] none with - | ⟨es, secs, lastF⟩
  · exact absurd hp (by decide)
  · have h := (claim_C3 [tsPayload] none es secs lastF hp).1
    show some es.length = some 1
    rw [h]
    rfl

/-- Claim C9 fails on the code: normalization is not total.  On the
well-formed payload `{"@message": "vertex \" \""}` the vertex regex
group is all whitespace, so `candidate.split()` is empty and
`candidate.split()[0]` in `_extract_resource_from_message` raises
`IndexError`; the record yields no output and the whole
`parse_log_file` run aborts. -/
theorem claim_C9 :
    parse_entry_from_dict none crashPayload = none ∧
    parse_log_file [crashPayload] none = none := by
  refine ⟨by decide, by decide⟩

def applyStartPayload : Payload := [("@message", .str "starting Apply operation")]
def plainPayload : Payload := [("@message", .str "working hard")]
def applyCompletePayload : Payload := [("@message", .str "Apply complete!")]

/-- Claim C4 fails on the code: in the anonymous-fallback scenario
(record 0 matches an apply-start pattern, record 1 matches nothing,
record 2 matches an apply-complete pattern, no record carries an
identifier), the close-all loop for identifier-less records also closes
`_anon_*` keys, so the anonymous section opened at index 0 is closed at
index 0 when record 1 arrives.  The run produces one section spanning
0–0 (not 0–2), record 1 is not attached (`section_event` stays absent,
never `inside`), and record 2 matches no open section. -/
theorem claim_C4 :
    (parse_log_file [applyStartPayload, plainPayload, applyCompletePayload] none).map
      (fun r => (r.2.1.map (fun s => (s.tf_req_id, s.type, s.start_index, s.end_index, s.entries)),
                 r.1.map (fun e => (e.section_id, e.section_event)))) =
    some (([(none, "apply", 0, some 0, 1)] : List (Option Jval × String × Nat × Option Nat × Nat)),
          ([(some 1, some "end"), (none, none), (none, none)] : List (Option Nat × Option String))) := by
  rfl

/-- The concrete parse result used to witness C10's disjointness part
(the C1 scenario stream, which yields two sections). -/
def c10res : List Entry × List Section × Option String :=
  (parse_log_file [pA, pA, pB, emptyPayload] none).getD ([], [], none)

/-- C10: at most one section is ever open while the tracker runs
(`open_by_id` never holds more than one binding); a record carrying a
truthy identifier `v` leaves no differently-keyed section open after
its step; a record with no truthy identifier leaves no
identifier-keyed (non-anonymous) section open after its step; and in
the final section table every closed section's `end_index` lies
strictly before every later section's `start_index`, so sections —
in particular sections of distinct request identifiers — are never
simultaneously open and their index ranges never overlap. -/
theorem claim_C10 :
    (∀ (es : List Entry) (n : Nat), (afterSteps es n).openById.length ≤ 1) ∧
    (∀ (st : TrackState) (idx : Nat) (v : Jval) (blob : String) (k : Jval), k ≠ v →
      lookupKey (tfidStep st idx v blob).openById k = none) ∧
    (∀ (st : TrackState) (idx : Nat) (blob : String) (k : Jval), isAnonKey k = false →
      lookupKey (noTfidStep st idx blob).openById k = none) ∧
    (∀ (objs : List Payload) (last0 : Option String) (ents : List Entry)
        (secs : List Section) (lf : Option String),
      parse_log_file objs last0 = some (ents, secs, lf) →
      ∀ p q e, p < q → q < secs.length →
        (secs.getD p default).end_index = some e →
        e < (secs.getD q default).start_index) := by
  refine ⟨?_, ?_, ?_, ?_⟩
  · intro es n
    rcases StInv_afterSteps es n with ⟨hopen, -⟩ | ⟨k, hopen, -⟩ <;> rw [hopen] <;> simp
  · intro st idx v blob k hkv
    exact tfidStep_closes_others st idx v blob k hkv
  · intro st idx blob k hk
    exact noTfidStep_closes_ids st idx blob k hk
  · intro objs last0 ents secs lf hp p q e hpq hq hpe
    cases hc : collectEntries objs last0 with
    | none =>
      unfold parse_log_file at hp
      rw [hc] at hp
      cases hp
    | some pair =>
      obtain ⟨es, lastF⟩ := pair
      unfold parse_log_file at hp
      rw [hc] at hp
      replace hp : some ((eofClose (afterSteps es es.length)).entries,
          (eofClose (afterSteps es es.length)).sections, lastF) = some (ents, secs, lf) := hp
      cases hp
      exact eofClose_pairwise _ _ (StInv_afterSteps es es.length) p q e hpq hq hpe

/-- Witness for C10's hypothesis-bearing parts: a concrete
differently-keyed open binding is closed by an identifier step, a
concrete identifier-keyed binding is closed by an identifier-less
step, and in the C1 scenario's final table section 0 ends (index 1)
strictly before section 1 starts (index 2). -/
theorem claim_C10_witness :
    lookupKey (tfidStep ⟨[], [], [(Jval.str "a", 0)]⟩ 1 (Jval.str "b") "").openById
        (Jval.str "a") = none ∧
    lookupKey (noTfidStep ⟨[], [], [(Jval.str "a", 0)]⟩ 1 "").openById (Jval.str "a") = none ∧
    1 < ((c10res.2.1.getD 1 default)).start_index := by
  refine ⟨claim_C10.2.1 ⟨[], [], [(Jval.str "a", 0)]⟩ 1 (Jval.str "b") "" (Jval.str "a")
      (by decide),
    claim_C10.2.2.1 ⟨[], [], [(Jval.str "a", 0)]⟩ 1 "" (Jval.str "a") (by decide), ?_⟩
  rcases hp : parse_log_file [pA, pA, pB, emptyPayload] none with - | ⟨ents, secs, lf⟩
  · exact absurd hp (by decide)
  · have hsecs : secs = c10res.2.1 := by
      unfold c10res
      rw [hp]
      rfl
    have hq : 1 < secs.length := by rw [hsecs]; decide
    have hpe : (secs.getD 0 default).end_index = some 1 := by rw [hsecs]; decide
    have h := claim_C10.2.2.2 [pA, pA, pB, emptyPayload] none ents secs lf hp 0 1 1
      (by decide) hq hpe
    rw [hsecs] at h
    exact h

end TfLog
